import Mathlib

/-!
# Verification of the `vlen` variable-length codec

Shallow embedding of the `vlen` Rust crate (src/vlen/encode.rs, src/vlen/decode.rs,
src/vlen/simd/mod.rs).  Byte buffers `[u8; N]` are modelled as `List Nat` whose
entries are read through `byteAt` (which truncates to a byte, as u8 memory does)
and written through `setByte` (which truncates the stored value, as a u8 store
does).  Machine integers are `Nat` with explicit `% 2^w` at the points the Rust
code performs an `as` cast, and `Int` for the signed types.
-/

namespace Vlen

/-- Read the byte at index `i` of a buffer (u8 memory holds values `< 256`). -/
def byteAt (buf : List Nat) (i : Nat) : Nat :=
  (buf.getD i 0) % 256

/-- Store a byte at index `i` (a u8 store truncates the value). -/
def setByte (buf : List Nat) (i x : Nat) : List Nat :=
  buf.set i (x % 256)

/-- Little-endian read of `n` bytes starting at `off`; models the
`ptr.read`/`read_unaligned` + `from_le` of an `n`-byte integer. -/
def leRead (buf : List Nat) (off : Nat) : Nat → Nat
  | 0 => 0
  | n + 1 => byteAt buf off + 256 * leRead buf (off + 1) n

/-- Little-endian write of the low `n` bytes of `x` starting at `off`; models
the `ptr.write`/`write_unaligned` + `to_le` of an `n`-byte integer
(`write_aligned_at_offset!` with `off = 1`). -/
def writeLE (buf : List Nat) (off : Nat) (x : Nat) : Nat → List Nat
  | 0 => buf
  | n + 1 => writeLE (setByte buf off x) (off + 1) (x / 256) n

/-! ## Basic buffer lemmas -/

theorem byteAt_lt (buf : List Nat) (i : Nat) : byteAt buf i < 256 :=
  Nat.mod_lt _ (by norm_num)

@[simp] theorem length_setByte (buf : List Nat) (i x : Nat) :
    (setByte buf i x).length = buf.length := by
  simp [setByte]

theorem byteAt_setByte_eq (buf : List Nat) (i x : Nat) (h : i < buf.length) :
    byteAt (setByte buf i x) i = x % 256 := by
  simp [byteAt, setByte, List.getD, List.getElem?_set_self' , h]

theorem byteAt_setByte_ne (buf : List Nat) (i j x : Nat) (h : i ≠ j) :
    byteAt (setByte buf i x) j = byteAt buf j := by
  simp [byteAt, setByte, List.getD, List.getElem?_set_ne h]

theorem byteAt_cons_zero (a : Nat) (l : List Nat) : byteAt (a :: l) 0 = a % 256 := by
  simp [byteAt, List.getD]

theorem byteAt_cons_succ (a : Nat) (l : List Nat) (i : Nat) :
    byteAt (a :: l) (i + 1) = byteAt l i := by
  simp [byteAt, List.getD]

@[simp] theorem length_writeLE (off x n : Nat) : ∀ buf : List Nat,
    (writeLE buf off x n).length = buf.length := by
  induction n generalizing off x with
  | zero => intro buf; rfl
  | succ n ih => intro buf; simp [writeLE, ih]

theorem byteAt_writeLE_lt (n : Nat) : ∀ (buf : List Nat) (off x i : Nat),
    i < off → byteAt (writeLE buf off x n) i = byteAt buf i := by
  induction n with
  | zero => intro buf off x i _; rfl
  | succ n ih =>
    intro buf off x i h
    rw [writeLE, ih _ _ _ _ (by omega), byteAt_setByte_ne _ _ _ _ (by omega)]

theorem byteAt_writeLE_ge (n : Nat) : ∀ (buf : List Nat) (off x i : Nat),
    off + n ≤ i → byteAt (writeLE buf off x n) i = byteAt buf i := by
  induction n with
  | zero => intro buf off x i _; rfl
  | succ n ih =>
    intro buf off x i h
    rw [writeLE, ih _ _ _ _ (by omega), byteAt_setByte_ne _ _ _ _ (by omega)]

theorem byteAt_writeLE_in (n : Nat) : ∀ (buf : List Nat) (off x k : Nat),
    k < n → off + k < buf.length →
    byteAt (writeLE buf off x n) (off + k) = (x / 256 ^ k) % 256 := by
  induction n with
  | zero => intro buf off x k h _; omega
  | succ n ih =>
    intro buf off x k h hlen
    cases k with
    | zero =>
      rw [writeLE, byteAt_writeLE_lt _ _ _ _ _ (by omega)]
      simpa using byteAt_setByte_eq buf off x (by simpa using hlen)
    | succ k =>
      rw [writeLE]
      have := ih (setByte buf off x) (off + 1) (x / 256) k (by omega)
        (by simp; omega)
      rw [show off + (k + 1) = off + 1 + k by omega, this,
        Nat.div_div_eq_div_mul, pow_succ]
      ring_nf

theorem leRead_lt (n : Nat) : ∀ (buf : List Nat) (off : Nat),
    leRead buf off n < 256 ^ n := by
  induction n with
  | zero => intro buf off; simp [leRead]
  | succ n ih =>
    intro buf off
    have h1 := byteAt_lt buf off
    have h2 := ih buf (off + 1)
    have : 256 ^ (n + 1) = 256 * 256 ^ n := by ring
    rw [leRead, this]; omega

theorem leRead_congr (n : Nat) : ∀ (b1 b2 : List Nat) (off : Nat),
    (∀ i, i < n → byteAt b1 (off + i) = byteAt b2 (off + i)) →
    leRead b1 off n = leRead b2 off n := by
  induction n with
  | zero => intro _ _ _ _; rfl
  | succ n ih =>
    intro b1 b2 off h
    rw [leRead, leRead, ih b1 b2 (off + 1)
      (fun i hi => by have := h (1 + i) (by omega); simpa [Nat.add_assoc] using this)]
    have := h 0 (by omega)
    simp at this
    rw [this]

theorem leRead_split (k : Nat) : ∀ (buf : List Nat) (off m : Nat),
    leRead buf off (k + m) = leRead buf off k + 256 ^ k * leRead buf (off + k) m := by
  induction k with
  | zero => intro buf off m; simp [leRead]
  | succ k ih =>
    intro buf off m
    have : k + 1 + m = (k + m) + 1 := by omega
    rw [this, leRead, leRead, ih buf (off + 1) m]
    have : off + 1 + k = off + (k + 1) := by omega
    rw [this, pow_succ]
    ring

theorem leRead_mod (buf : List Nat) (off k n : Nat) (h : k ≤ n) :
    leRead buf off n % 256 ^ k = leRead buf off k := by
  have : n = k + (n - k) := by omega
  rw [this, leRead_split, Nat.add_mul_mod_self_left,
    Nat.mod_eq_of_lt (leRead_lt k buf off)]

theorem leRead_writeLE (n : Nat) : ∀ (buf : List Nat) (off x : Nat),
    off + n ≤ buf.length → leRead (writeLE buf off x n) off n = x % 256 ^ n := by
  intro buf off x h
  induction n generalizing buf off x with
  | zero => simp [leRead, Nat.mod_one]
  | succ n ih =>
    rw [leRead]
    have h0 : byteAt (writeLE buf off x (n + 1)) off = x % 256 := by
      have := byteAt_writeLE_in (n + 1) buf off x 0 (by omega) (by omega)
      simpa using this
    have h1 : leRead (writeLE buf off x (n + 1)) (off + 1) n
        = (x / 256) % 256 ^ n := by
      rw [writeLE]
      exact ih (setByte buf off x) (off + 1) (x / 256) (by simp; omega)
    rw [h0, h1, pow_succ', Nat.mod_mul]

/-! ## Bitwise arithmetic helpers -/

theorem lor_eq_add {n : Nat} (a b : Nat) (ha : a % 2 ^ n = 0) (hb : b < 2 ^ n) :
    a ||| b = a + b := by
  have hd := Nat.mul_div_cancel' (Nat.dvd_of_mod_eq_zero ha)
  obtain ⟨c, rfl⟩ : ∃ c, a = 2 ^ n * c := ⟨a / 2 ^ n, by omega⟩
  exact (Nat.mul_add_lt_is_or hb c).symm

theorem and_mask (x k : Nat) : x &&& (2 ^ k - 1) = x % 2 ^ k :=
  Nat.and_pow_two_sub_one_eq_mod x k

theorem and_15 (x : Nat) : x &&& 15 = x % 16 := by
  have := and_mask x 4; norm_num at this; exact this

theorem and_31 (x : Nat) : x &&& 31 = x % 32 := by
  have := and_mask x 5; norm_num at this; exact this

theorem and_63 (x : Nat) : x &&& 63 = x % 64 := by
  have := and_mask x 6; norm_num at this; exact this

theorem and_255 (x : Nat) : x &&& 255 = x % 256 := by
  have := and_mask x 8; norm_num at this; exact this

theorem xor_allones : ∀ (W a : Nat), a < 2 ^ W → (2 ^ W - 1) ^^^ a = 2 ^ W - 1 - a := by
  intro W
  induction W with
  | zero =>
    intro a h
    interval_cases a
    rfl
  | succ W ih =>
    intro a h
    have hsplit : ∀ x : Nat, x = 2 * (x / 2) + x % 2 := fun x => by omega
    have hpow : (2 : Nat) ^ (W + 1) = 2 * 2 ^ W := by ring
    have hp : 0 < 2 ^ W := Nat.pos_pow_of_pos W (by norm_num)
    have htop : (2 ^ (W + 1) - 1) / 2 = 2 ^ W - 1 := by omega
    have hdiv : ((2 ^ (W + 1) - 1) ^^^ a) / 2 = 2 ^ W - 1 - a / 2 := by
      rw [Nat.xor_div_two, htop, ih (a / 2) (by omega)]
    have htopmod : (2 ^ (W + 1) - 1) % 2 = 1 := by omega
    have hmod : ((2 ^ (W + 1) - 1) ^^^ a) % 2 = 1 - a % 2 := by
      rcases Nat.mod_two_eq_zero_or_one ((2 ^ (W + 1) - 1) ^^^ a) with h0 | h1
      · have := (Nat.xor_mod_two_eq_one (a := 2 ^ (W + 1) - 1) (b := a)).not.mp
          (by omega)
        push_neg at this
        omega
      · have := (Nat.xor_mod_two_eq_one (a := 2 ^ (W + 1) - 1) (b := a)).mp h1
        omega
    have := hsplit ((2 ^ (W + 1) - 1) ^^^ a)
    rw [hdiv, hmod] at this
    omega

theorem xor_seven (x : Nat) (h : x < 8) : x ^^^ 7 = 7 - x := by
  have := xor_allones 3 x (by norm_num; omega)
  rw [Nat.xor_comm]
  norm_num at this
  exact this

theorem xor_fifteen (x : Nat) (h : x < 16) : x ^^^ 15 = 15 - x := by
  have := xor_allones 4 x (by norm_num; omega)
  rw [Nat.xor_comm]
  norm_num at this
  exact this

/-- `(2^a - 1) >>> b = 2^(a-b) - 1` for `b ≤ a`; evaluates the mask
`T::MAX >> ((size - payload_bytes) * 8)`. -/
theorem max_shiftRight (a b : Nat) (h : b ≤ a) :
    (2 ^ a - 1) >>> b = 2 ^ (a - b) - 1 := by
  rw [Nat.shiftRight_eq_div_pow]
  have ha : (2 : Nat) ^ a = 2 ^ b * 2 ^ (a - b) := by
    rw [← pow_add]; congr 1; omega
  have h1 : (0 : Nat) < 2 ^ b := Nat.pos_pow_of_pos b (by norm_num)
  have h2 : (0 : Nat) < 2 ^ (a - b) := Nat.pos_pow_of_pos _ (by norm_num)
  rw [ha]
  obtain ⟨m, hm⟩ : ∃ m, 2 ^ (a - b) = m + 1 := ⟨2 ^ (a - b) - 1, by omega⟩
  have hmul := Nat.mul_add (2 ^ b) m 1
  have : 2 ^ b * 2 ^ (a - b) - 1 = 2 ^ b * m + (2 ^ b - 1) := by
    rw [hm]; omega
  rw [this, Nat.mul_add_div h1, Nat.div_eq_of_lt (by omega), hm]
  omega

/-! ## Bit length / leading zeros

Rust's `leading_zeros()` intrinsic, modelled through a fuel-based bit-length
function (fuel 128 covers every supported width). -/

def bitLenAux : Nat → Nat → Nat
  | 0, _ => 0
  | fuel + 1, n => if n = 0 then 0 else bitLenAux fuel (n / 2) + 1

/-- Number of bits needed to represent `n` (for `n < 2^128`). -/
def bitLen (n : Nat) : Nat := bitLenAux 128 n

/-- `value.leading_zeros()` for a `bits`-wide unsigned integer. -/
def leadingZeros (bits v : Nat) : Nat := bits - bitLen v

theorem bitLenAux_le_iff : ∀ (fuel n k : Nat), n < 2 ^ fuel →
    (bitLenAux fuel n ≤ k ↔ n < 2 ^ k) := by
  intro fuel
  induction fuel with
  | zero =>
    intro n k h
    interval_cases n
    simp [bitLenAux, Nat.pos_pow_of_pos]
  | succ fuel ih =>
    intro n k h
    by_cases hn : n = 0
    · subst hn; simp [bitLenAux, Nat.pos_pow_of_pos]
    · rw [bitLenAux, if_neg hn]
      cases k with
      | zero =>
        simp only [Nat.pow_zero]
        omega
      | succ k =>
        have hdivfuel : n / 2 < 2 ^ fuel := by
          have : (2 : Nat) ^ (fuel + 1) = 2 * 2 ^ fuel := by ring
          omega
        rw [Nat.succ_le_succ_iff, ih (n / 2) k hdivfuel]
        have : (2 : Nat) ^ (k + 1) = 2 * 2 ^ k := by ring
        omega

theorem bitLen_le_iff {n k : Nat} (h : n < 2 ^ 128) :
    bitLen n ≤ k ↔ n < 2 ^ k :=
  bitLenAux_le_iff 128 n k h

theorem lt_two_pow_bitLen {n : Nat} (h : n < 2 ^ 128) : n < 2 ^ bitLen n :=
  (bitLen_le_iff h).mp le_rfl

theorem two_pow_le_of_bitLen_lt {n k : Nat} (h : n < 2 ^ 128)
    (hk : k < bitLen n) : 2 ^ k ≤ n := by
  by_contra hlt
  have := (bitLen_le_iff h).mpr (by omega : n < 2 ^ k)
  omega

/-! ## Scalar unsigned codec (src/vlen/encode.rs, src/vlen/decode.rs) -/

/-- `encoded_len`: the encoded length determined by a `vlen` prefix byte. -/
def encoded_len (b : Nat) : Nat :=
  if b < 0x80 then 1
  else if b < 0xC0 then 2
  else if b < 0xE0 then 3
  else if b < 0xF0 then 4
  else (b &&& 0x0F) + 2

/-- `encoded_size_u16`. -/
def encoded_size_u16 (v : Nat) : Nat :=
  if v < 0x80 then 1 else if v < 0x4000 then 2 else 3

/-- `encoded_size_u32`. -/
def encoded_size_u32 (v : Nat) : Nat :=
  if v ≤ 0xFFFF then encoded_size_u16 (v % 2 ^ 16)
  else if v < 0x200000 then 3
  else if v < 0x10000000 then 4
  else 5

/-- `encoded_size_u64` (from the `encode_large_int!` macro, `LEN_MASK = 0b111`). -/
def encoded_size_u64 (v : Nat) : Nat :=
  if v ≤ 0xFFFFFFFF then encoded_size_u32 (v % 2 ^ 32)
  else ((leadingZeros 64 v >>> 3) ^^^ 0b111) + 2

/-- `encoded_size_u128` (from the `encode_large_int!` macro, `LEN_MASK = 0b1111`). -/
def encoded_size_u128 (v : Nat) : Nat :=
  if v ≤ 0xFFFFFFFFFFFFFFFF then encoded_size_u64 (v % 2 ^ 64)
  else ((leadingZeros 128 v >>> 3) ^^^ 0b1111) + 2

/-- `encode_u16` into a `[u8; 3]` buffer; returns the updated buffer and length. -/
def encode_u16 (buf : List Nat) (v : Nat) : List Nat × Nat :=
  if v < 0x80 then (setByte buf 0 v, 1)
  else if v < 0x4000 then
    (setByte (setByte buf 0 (0x80 ||| (v &&& 0x3F))) 1 (v >>> 6), 2)
  else
    (setByte (setByte (setByte buf 0 0xDE) 1 (v &&& 0xFF)) 2 (v >>> 8), 3)

/-- `encode_u32` into a `[u8; 5]` buffer. -/
def encode_u32 (buf : List Nat) (v : Nat) : List Nat × Nat :=
  if v < 0x4000 then encode_u16 buf (v % 2 ^ 16)
  else if v < 0x200000 then
    (setByte (setByte (setByte buf 0 (0xC0 ||| (v &&& 0x1F))) 1 (v >>> 5)) 2 (v >>> 13), 3)
  else if v < 0x10000000 then
    (writeLE (setByte buf 0 (0xE0 ||| (v &&& 0x0F))) 1 ((v >>> 4) % 2 ^ 32) 4, 4)
  else
    (setByte (writeLE buf 1 (v % 2 ^ 32) 4) 0 0xF3, 5)

/-- `encode_u64` into a `[u8; 9]` buffer (from `encode_large_int!`,
`LEN_MASK = 0b111`; the full 8-byte payload slot is written). -/
def encode_u64 (buf : List Nat) (v : Nat) : List Nat × Nat :=
  if v ≤ 0xFFFFFFFF then encode_u32 buf (v % 2 ^ 32)
  else
    let buf1 := writeLE buf 1 (v % 2 ^ 64) 8
    let len := (leadingZeros 64 v >>> 3) ^^^ 0b111
    (setByte buf1 0 (0xF0 ||| len), len + 2)

/-- `encode_u128` into a `[u8; 17]` buffer (from `encode_large_int!`,
`LEN_MASK = 0b1111`; the full 16-byte payload slot is written). -/
def encode_u128 (buf : List Nat) (v : Nat) : List Nat × Nat :=
  if v ≤ 0xFFFFFFFFFFFFFFFF then encode_u64 buf (v % 2 ^ 64)
  else
    let buf1 := writeLE buf 1 (v % 2 ^ 128) 16
    let len := (leadingZeros 128 v >>> 3) ^^^ 0b1111
    (setByte buf1 0 (0xF0 ||| len), len + 2)

/-- `decode_binary_length_prefix!` for a type of `size` bytes. -/
def decodeBLP (size : Nat) (buf : List Nat) : Nat × Nat :=
  let len := byteAt buf 0 &&& 0x0F
  let payloadBytes := len + 1
  let mask := if payloadBytes ≥ size then 2 ^ (8 * size) - 1
    else (2 ^ (8 * size) - 1) >>> ((size - payloadBytes) * 8)
  let value := leRead buf 1 size
  (value &&& mask, len + 2)

/-- `decode_u16` from a `[u8; 3]` buffer; returns `(value, length)`. -/
def decode_u16 (buf : List Nat) : Nat × Nat :=
  let buf0 := byteAt buf 0
  if buf0 < 0x80 then (buf0, 1)
  else if buf0 < 0xC0 then
    let low := buf0 &&& 0x3F
    ((byteAt buf 1 <<< 6) ||| low, 2)
  else if buf0 = 0xDE then
    ((byteAt buf 2 <<< 8) ||| byteAt buf 1, 3)
  else decodeBLP 2 buf

/-- `decode_u32` from a `[u8; 5]` buffer. -/
def decode_u32 (buf : List Nat) : Nat × Nat :=
  let buf0 := byteAt buf 0
  if buf0 ≥ 0xF0 then decodeBLP 4 buf
  else if buf0 < 0xC0 then decode_u16 buf
  else if buf0 < 0xE0 then
    let low := buf0 &&& 0x1F
    ((byteAt buf 2 <<< 13) ||| (byteAt buf 1 <<< 5) ||| low, 3)
  else
    ((byteAt buf 3 <<< 20) ||| (byteAt buf 2 <<< 12) ||| (byteAt buf 1 <<< 4)
      ||| (buf0 &&& 0x0F), 4)

/-- `decode_u64` from a `[u8; 9]` buffer (from `decode_large_int!`;
delegates to `decode_u32` below `0xF0`). -/
def decode_u64 (buf : List Nat) : Nat × Nat :=
  if byteAt buf 0 ≥ 0xF0 then decodeBLP 8 buf else decode_u32 buf

/-- `decode_u128` from a `[u8; 17]` buffer (from `decode_large_int!`; note the
source delegates directly to `decode_u32`, not `decode_u64`). -/
def decode_u128 (buf : List Nat) : Nat × Nat :=
  if byteAt buf 0 ≥ 0xF0 then decodeBLP 16 buf else decode_u32 buf

/-! ## Signed transform (zigzag), on `Int` -/

/-- Two's-complement cast `iW -> uW` (an `as U` cast of a signed value). -/
def asU (W : Nat) (v : Int) : Nat := (v % (2 ^ W : Int)).toNat

/-- Two's-complement cast `uW -> iW` (an `as I` cast of an unsigned value). -/
def toSigned (W : Nat) (n : Nat) : Int :=
  if n < 2 ^ (W - 1) then (n : Int) else (n : Int) - 2 ^ W

/-- Bitwise XOR on `W`-bit signed values (two's complement). -/
def ixor (W : Nat) (a b : Int) : Int := toSigned W (asU W a ^^^ asU W b)

/-- The zigzag map of `encode_signed_int!`:
`((value >> (W-1)) as U) ^ ((value << 1) as U)`. -/
def zigzag (W : Nat) (v : Int) : Nat :=
  asU W (v >>> (W - 1)) ^^^ asU W (v * 2)

/-- The inverse map of `decode_signed_int!`:
`((zigzag >> 1) as I) ^ (-((zigzag & 1) as I))`. -/
def unzigzag (W : Nat) (z : Nat) : Int :=
  ixor W (toSigned W (z >>> 1)) (-(toSigned W (z &&& 1)))

/-- `encode_i16`. -/
def encode_i16 (buf : List Nat) (v : Int) : List Nat × Nat :=
  encode_u16 buf (zigzag 16 v)

/-- `encode_i32`. -/
def encode_i32 (buf : List Nat) (v : Int) : List Nat × Nat :=
  encode_u32 buf (zigzag 32 v)

/-- `encode_i64`. -/
def encode_i64 (buf : List Nat) (v : Int) : List Nat × Nat :=
  encode_u64 buf (zigzag 64 v)

/-- `encode_i128`. -/
def encode_i128 (buf : List Nat) (v : Int) : List Nat × Nat :=
  encode_u128 buf (zigzag 128 v)

/-- `decode_i16`. -/
def decode_i16 (buf : List Nat) : Int × Nat :=
  let (z, len) := decode_u16 buf
  (unzigzag 16 z, len)

/-- `decode_i32`. -/
def decode_i32 (buf : List Nat) : Int × Nat :=
  let (z, len) := decode_u32 buf
  (unzigzag 32 z, len)

/-- `decode_i64`. -/
def decode_i64 (buf : List Nat) : Int × Nat :=
  let (z, len) := decode_u64 buf
  (unzigzag 64 z, len)

/-- `decode_i128`. -/
def decode_i128 (buf : List Nat) : Int × Nat :=
  let (z, len) := decode_u128 buf
  (unzigzag 128 z, len)

/-! ## Float transform, modelled on IEEE bit patterns

`encode_f32`/`decode_f32` only move the float's bit pattern
(`to_bits`/`from_bits`) through a byte swap and the unsigned codec, so they are
modelled as functions of the 32 or 64 bit pattern; round-tripping the bit pattern
exactly is the bit-for-bit (NaN-payload-preserving) property. -/

/-- `u32::swap_bytes`. -/
def byteSwap32 (x : Nat) : Nat :=
  (x % 256) * 2 ^ 24 + (x / 2 ^ 8 % 256) * 2 ^ 16 + (x / 2 ^ 16 % 256) * 2 ^ 8
    + (x / 2 ^ 24 % 256)

/-- `u64::swap_bytes`. -/
def byteSwap64 (x : Nat) : Nat :=
  (x % 256) * 2 ^ 56 + (x / 2 ^ 8 % 256) * 2 ^ 48 + (x / 2 ^ 16 % 256) * 2 ^ 40
    + (x / 2 ^ 24 % 256) * 2 ^ 32 + (x / 2 ^ 32 % 256) * 2 ^ 24
    + (x / 2 ^ 40 % 256) * 2 ^ 16 + (x / 2 ^ 48 % 256) * 2 ^ 8
    + (x / 2 ^ 56 % 256)

/-- `encode_f32` on the float's bit pattern: `encode_u32(value.to_bits().swap_bytes())`. -/
def encode_f32 (buf : List Nat) (bits : Nat) : List Nat × Nat :=
  encode_u32 buf (byteSwap32 bits)

/-- `encode_f64` on the float's bit pattern. -/
def encode_f64 (buf : List Nat) (bits : Nat) : List Nat × Nat :=
  encode_u64 buf (byteSwap64 bits)

/-- `decode_f32` on the bit-pattern level: `f32::from_bits(swapped.swap_bytes())`. -/
def decode_f32 (buf : List Nat) : Nat × Nat :=
  let (swapped, len) := decode_u32 buf
  (byteSwap32 swapped, len)

/-- `decode_f64` on the bit-pattern level. -/
def decode_f64 (buf : List Nat) : Nat × Nat :=
  let (swapped, len) := decode_u64 buf
  (byteSwap64 swapped, len)

/-- `Encode::encoded_size` for the signed type of width `W` (from
`impl_encode_signed!`): the size of the zigzag form. -/
def encoded_size_signed (W : Nat) (sizeFn : Nat → Nat) (v : Int) : Nat :=
  sizeFn (asU W (v >>> (W - 1)) ^^^ asU W (v * 2))

/-- `Encode::encoded_size` for a float (from `impl_encode_float!`):
`size_fn(value.to_bits().swap_bytes())`. -/
def encoded_size_f32 (bits : Nat) : Nat := encoded_size_u32 (byteSwap32 bits)

/-- `Encode::encoded_size` for `f64`. -/
def encoded_size_f64 (bits : Nat) : Nat := encoded_size_u64 (byteSwap64 bits)

/-! ## Round trip: unsigned scalar codec -/

theorem shr (x k : Nat) : x >>> k = x / 2 ^ k := Nat.shiftRight_eq_div_pow x k

theorem shl (x k : Nat) : x <<< k = x * 2 ^ k := Nat.shiftLeft_eq x k

theorem rt_u16 (buf : List Nat) (h : 3 ≤ buf.length) (v : Nat) (hv : v < 2 ^ 16) :
    decode_u16 (encode_u16 buf v).1 = (v, (encode_u16 buf v).2) := by
  norm_num at hv
  by_cases h1 : v < 0x80
  · rw [encode_u16, if_pos h1]
    have hb0 : byteAt (setByte buf 0 v) 0 = v := by
      rw [byteAt_setByte_eq _ _ _ (by omega), Nat.mod_eq_of_lt (by omega)]
    simp only [decode_u16, hb0]
    rw [if_pos h1]
  · by_cases h2 : v < 0x4000
    · rw [encode_u16, if_neg h1, if_pos h2]
      set eb := setByte (setByte buf 0 (0x80 ||| (v &&& 0x3F))) 1 (v >>> 6) with heb
      have hb0 : byteAt eb 0 = 128 + v % 64 := by
        rw [heb, byteAt_setByte_ne _ _ _ _ (by omega),
          byteAt_setByte_eq _ _ _ (by omega), and_63,
          lor_eq_add (n := 6) _ _ (by norm_num) (by omega)]
        exact Nat.mod_eq_of_lt (by omega)
      have hb1 : byteAt eb 1 = v / 64 := by
        rw [heb, byteAt_setByte_eq _ _ _ (by simp; omega), shr]
        norm_num
        omega
      simp only [decode_u16, hb0, hb1]
      rw [if_neg (by omega), if_pos (by omega), and_63, shl]
      have hlow : (128 + v % 64) % 64 = v % 64 := by omega
      rw [hlow, lor_eq_add (n := 6) _ _ (Nat.mul_mod_left _ _) (by norm_num; omega)]
      norm_num
      omega
    · rw [encode_u16, if_neg h1, if_neg h2]
      set eb := setByte (setByte (setByte buf 0 0xDE) 1 (v &&& 0xFF)) 2 (v >>> 8)
        with heb
      have hb0 : byteAt eb 0 = 0xDE := by
        rw [heb, byteAt_setByte_ne _ _ _ _ (by omega),
          byteAt_setByte_ne _ _ _ _ (by omega), byteAt_setByte_eq _ _ _ (by omega)]
      have hb1 : byteAt eb 1 = v % 256 := by
        rw [heb, byteAt_setByte_ne _ _ _ _ (by omega),
          byteAt_setByte_eq _ _ _ (by simp; omega), and_255, Nat.mod_mod_of_dvd]
        norm_num
      have hb2 : byteAt eb 2 = v / 256 := by
        rw [heb, byteAt_setByte_eq _ _ _ (by simp; omega), shr]
        norm_num
        omega
      simp only [decode_u16, hb0, hb1, hb2]
      rw [if_neg (by omega), if_neg (by omega), if_true, shl,
        lor_eq_add (n := 8) _ _ (Nat.mul_mod_left _ _) (by norm_num; omega)]
      norm_num
      omega

theorem pow256 (n : Nat) : (256 : Nat) ^ n = 2 ^ (8 * n) := by
  rw [show (256 : Nat) = 2 ^ 8 by norm_num, ← pow_mul]

theorem length_encode_u16 (buf : List Nat) (v : Nat) :
    (encode_u16 buf v).1.length = buf.length := by
  rw [encode_u16]
  split_ifs <;> simp

theorem length_encode_u32 (buf : List Nat) (v : Nat) :
    (encode_u32 buf v).1.length = buf.length := by
  rw [encode_u32]
  split_ifs <;> simp [length_encode_u16]

theorem length_encode_u64 (buf : List Nat) (v : Nat) :
    (encode_u64 buf v).1.length = buf.length := by
  rw [encode_u64]
  split_ifs <;> simp [length_encode_u32]

theorem length_encode_u128 (buf : List Nat) (v : Nat) :
    (encode_u128 buf v).1.length = buf.length := by
  rw [encode_u128]
  split_ifs <;> simp [length_encode_u64]

/-- First byte produced by `encode_u16`, per tier. -/
theorem encode_u16_byte0 (buf : List Nat) (v : Nat) (h : 3 ≤ buf.length)
    (hv : v < 2 ^ 16) :
    byteAt (encode_u16 buf v).1 0
      = if v < 0x80 then v else if v < 0x4000 then 128 + v % 64 else 0xDE := by
  norm_num at hv ⊢
  rw [encode_u16]
  by_cases h1 : v < 128
  · rw [if_pos h1, if_pos h1]
    simp only
    rw [byteAt_setByte_eq _ _ _ (by omega), Nat.mod_eq_of_lt (by omega)]
  · rw [if_neg h1, if_neg h1]
    by_cases h2 : v < 16384
    · rw [if_pos h2, if_pos h2]
      simp only
      rw [byteAt_setByte_ne _ _ _ _ (by omega), byteAt_setByte_eq _ _ _ (by omega),
        and_63, lor_eq_add (n := 6) _ _ (by norm_num) (by omega),
        Nat.mod_eq_of_lt (by omega)]
    · rw [if_neg h2, if_neg h2]
      simp only
      rw [byteAt_setByte_ne _ _ _ _ (by omega), byteAt_setByte_ne _ _ _ _ (by omega),
        byteAt_setByte_eq _ _ _ (by omega)]

theorem decode3_value (x y z : Nat) (hy : y < 256) (hz : z < 32) :
    (x <<< 13) ||| (y <<< 5) ||| z = x * 8192 + y * 32 + z := by
  have h1 : x <<< 13 = x * 8192 := by rw [shl]; norm_num
  have h2 : y <<< 5 = y * 32 := by rw [shl]; norm_num
  have h3 : x * 8192 ||| y * 32 = x * 8192 + y * 32 := by
    apply lor_eq_add (n := 13)
    · show x * 8192 % 2 ^ 13 = 0
      norm_num [Nat.mul_mod_left]
    · show y * 32 < 2 ^ 13
      norm_num
      omega
  rw [h1, h2, h3]
  apply lor_eq_add (n := 5)
  · show (x * 8192 + y * 32) % 2 ^ 5 = 0
    rw [show x * 8192 + y * 32 = (x * 256 + y) * 32 by ring]
    norm_num [Nat.mul_mod_left]
  · show z < 2 ^ 5
    norm_num
    omega

theorem decode4_value (w x y z : Nat) (hx : x < 256) (hy : y < 256) (hz : z < 16) :
    (w <<< 20) ||| (x <<< 12) ||| (y <<< 4) ||| z
      = w * 1048576 + x * 4096 + y * 16 + z := by
  have h1 : w <<< 20 = w * 1048576 := by rw [shl]; norm_num
  have h2 : x <<< 12 = x * 4096 := by rw [shl]; norm_num
  have h3 : y <<< 4 = y * 16 := by rw [shl]; norm_num
  have h4 : w * 1048576 ||| x * 4096 = w * 1048576 + x * 4096 := by
    apply lor_eq_add (n := 20)
    · show w * 1048576 % 2 ^ 20 = 0
      norm_num [Nat.mul_mod_left]
    · show x * 4096 < 2 ^ 20
      norm_num
      omega
  have h5 : w * 1048576 + x * 4096 ||| y * 16
      = w * 1048576 + x * 4096 + y * 16 := by
    apply lor_eq_add (n := 12)
    · show (w * 1048576 + x * 4096) % 2 ^ 12 = 0
      rw [show w * 1048576 + x * 4096 = (w * 256 + x) * 4096 by ring]
      norm_num [Nat.mul_mod_left]
    · show y * 16 < 2 ^ 12
      norm_num
      omega
  rw [h1, h2, h3, h4, h5]
  apply lor_eq_add (n := 4)
  · show (w * 1048576 + x * 4096 + y * 16) % 2 ^ 4 = 0
    rw [show w * 1048576 + x * 4096 + y * 16 = (w * 65536 + x * 256 + y) * 16 by ring]
    norm_num [Nat.mul_mod_left]
  · show z < 2 ^ 4
    norm_num
    omega

/-- Evaluation of `decode_binary_length_prefix!` on a buffer whose first byte
declares `len` and whose payload bytes hold `v`. -/
theorem decodeBLP_eq (size len : Nat) (buf : List Nat) (v : Nat)
    (hb0 : byteAt buf 0 &&& 0x0F = len) (hlen : len + 1 ≤ size)
    (hle : leRead buf 1 (len + 1) = v) :
    decodeBLP size buf = (v, len + 2) := by
  simp only [decodeBLP, hb0]
  by_cases hp : len + 1 ≥ size
  · have hsz : len + 1 = size := by omega
    rw [if_pos hp, and_mask]
    have h1 : leRead buf 1 size < 2 ^ (8 * size) := by
      rw [← pow256]; exact leRead_lt size buf 1
    rw [Nat.mod_eq_of_lt h1, ← hsz, hle]
  · rw [if_neg hp, max_shiftRight _ _ (by omega)]
    have he : 8 * size - (size - (len + 1)) * 8 = 8 * (len + 1) := by omega
    rw [he, and_mask, ← pow256, leRead_mod _ _ _ _ (by omega), hle]

theorem rt_u32 (buf : List Nat) (h : 5 ≤ buf.length) (v : Nat) (hv : v < 2 ^ 32) :
    decode_u32 (encode_u32 buf v).1 = (v, (encode_u32 buf v).2) := by
  norm_num at hv
  by_cases h1 : v < 0x4000
  · rw [encode_u32, if_pos h1, Nat.mod_eq_of_lt (by norm_num; omega)]
    have hb0 := encode_u16_byte0 buf v (by omega) (by norm_num; omega)
    have hlt : byteAt (encode_u16 buf v).1 0 < 0xC0 := by
      rw [hb0]; split_ifs <;> omega
    simp only [decode_u32]
    rw [if_neg (by omega), if_pos hlt]
    exact rt_u16 buf (by omega) v (by norm_num; omega)
  · by_cases h2 : v < 0x200000
    · rw [encode_u32, if_neg h1, if_pos h2]
      set eb := setByte (setByte (setByte buf 0 (0xC0 ||| (v &&& 0x1F))) 1 (v >>> 5))
        2 (v >>> 13) with heb
      have hb0 : byteAt eb 0 = 192 + v % 32 := by
        rw [heb, byteAt_setByte_ne _ _ _ _ (by omega), byteAt_setByte_ne _ _ _ _ (by omega),
          byteAt_setByte_eq _ _ _ (by omega), and_31,
          lor_eq_add (n := 5) _ _ (by norm_num) (by omega),
          Nat.mod_eq_of_lt (by omega)]
      have hb1 : byteAt eb 1 = (v / 32) % 256 := by
        rw [heb, byteAt_setByte_ne _ _ _ _ (by omega),
          byteAt_setByte_eq _ _ _ (by simp; omega), shr]
        norm_num
      have hb2 : byteAt eb 2 = v / 8192 := by
        rw [heb, byteAt_setByte_eq _ _ _ (by simp; omega), shr]
        norm_num
        omega
      simp only [decode_u32, hb0, hb1, hb2]
      rw [if_neg (by omega), if_neg (by omega), if_pos (by omega), and_31,
        show (192 + v % 32) % 32 = v % 32 by omega,
        decode3_value _ _ _ (by omega) (by omega)]
      norm_num
      omega
    · by_cases h3 : v < 0x10000000
      · rw [encode_u32, if_neg h1, if_neg h2, if_pos h3]
        set eb := writeLE (setByte buf 0 (0xE0 ||| (v &&& 0x0F))) 1 ((v >>> 4) % 2 ^ 32) 4
          with heb
        have hx : (v >>> 4) % 2 ^ 32 = v / 16 := by
          rw [shr]; norm_num; omega
        have hb0 : byteAt eb 0 = 224 + v % 16 := by
          rw [heb, byteAt_writeLE_lt _ _ _ _ _ (by omega),
            byteAt_setByte_eq _ _ _ (by omega), and_15,
            lor_eq_add (n := 4) _ _ (by norm_num) (by omega),
            Nat.mod_eq_of_lt (by omega)]
        have hb1 : byteAt eb 1 = (v / 16) % 256 := by
          rw [heb, show (1 : Nat) = 1 + 0 by rfl,
            byteAt_writeLE_in _ _ _ _ _ (by omega) (by simp; omega), hx]
          norm_num
        have hb2 : byteAt eb 2 = (v / 4096) % 256 := by
          rw [heb, show (2 : Nat) = 1 + 1 by rfl,
            byteAt_writeLE_in _ _ _ _ _ (by omega) (by simp; omega), hx]
          norm_num
          rw [Nat.div_div_eq_div_mul]
        have hb3 : byteAt eb 3 = v / 1048576 := by
          rw [heb, show (3 : Nat) = 1 + 2 by rfl,
            byteAt_writeLE_in _ _ _ _ _ (by omega) (by simp; omega), hx]
          norm_num
          rw [Nat.div_div_eq_div_mul]
          omega
        simp only [decode_u32, hb0, hb1, hb2, hb3]
        rw [if_neg (by omega), if_neg (by omega), if_neg (by omega), and_15,
          show (224 + v % 16) % 16 = v % 16 by omega,
          decode4_value _ _ _ _ (by omega) (by omega) (by omega)]
        norm_num
        omega
      · rw [encode_u32, if_neg h1, if_neg h2, if_neg h3]
        set eb := setByte (writeLE buf 1 (v % 2 ^ 32) 4) 0 0xF3 with heb
        have hb0 : byteAt eb 0 = 0xF3 := by
          rw [heb, byteAt_setByte_eq _ _ _ (by simp; omega)]
        simp only [decode_u32]
        rw [hb0, if_pos (by norm_num)]
        have hle : leRead eb 1 4 = v := by
          rw [heb]
          have hc : leRead (setByte (writeLE buf 1 (v % 2 ^ 32) 4) 0 0xF3) 1 4
              = leRead (writeLE buf 1 (v % 2 ^ 32) 4) 1 4 :=
            leRead_congr 4 _ _ 1 (fun i _ => byteAt_setByte_ne _ _ _ _ (by omega))
          rw [hc, leRead_writeLE _ _ _ _ (by omega), pow256]
          norm_num
          omega
        have := decodeBLP_eq 4 3 eb v (by rw [hb0]; decide) (by omega) hle
        rw [this]

/-- The payload written by the `0xF0 | len` binary-length-prefix tier decodes
back through `decode_binary_length_prefix!` of any word size `dsize ≥ size`. -/
theorem decodeBLP_encLarge (dsize size len b0 : Nat) (buf : List Nat) (v : Nat)
    (hbuf : 1 + size ≤ buf.length) (hlen : len + 1 ≤ size) (hd : size ≤ dsize)
    (hv : v < 2 ^ (8 * (len + 1)))
    (hb0 : (b0 % 256) &&& 0x0F = len) :
    decodeBLP dsize (setByte (writeLE buf 1 (v % 2 ^ (8 * size)) size) 0 b0)
      = (v, len + 2) := by
  have hvs : v < 2 ^ (8 * size) :=
    lt_of_lt_of_le hv (Nat.pow_le_pow_right (by norm_num) (by omega))
  have hvl : v < 256 ^ (len + 1) := by rw [pow256]; exact hv
  apply decodeBLP_eq
  · rw [byteAt_setByte_eq _ _ _ (by simp; omega)]
    exact hb0
  · omega
  · have hc : leRead (setByte (writeLE buf 1 (v % 2 ^ (8 * size)) size) 0 b0) 1 (len + 1)
        = leRead (writeLE buf 1 (v % 2 ^ (8 * size)) size) 1 (len + 1) :=
      leRead_congr _ _ _ 1 (fun i _ => byteAt_setByte_ne _ _ _ _ (by omega))
    rw [hc, ← leRead_mod _ 1 (len + 1) size (by omega),
      leRead_writeLE _ _ _ _ (by simpa using hbuf), pow256 size,
      Nat.mod_mod_of_dvd _ dvd_rfl, Nat.mod_eq_of_lt hvs, Nat.mod_eq_of_lt hvl]

/-- The first byte `encode_u32` emits stays below `0xF0` whenever the value is
below the 5-byte tier. -/
theorem encode_u32_byte0_lt (buf : List Nat) (v : Nat) (h : 5 ≤ buf.length)
    (hv : v < 2 ^ 32) (hx : v < 0x10000000) :
    byteAt (encode_u32 buf v).1 0 < 0xF0 := by
  rw [encode_u32]
  by_cases h1 : v < 0x4000
  · rw [if_pos h1, Nat.mod_eq_of_lt (by norm_num; omega)]
    rw [encode_u16_byte0 buf v (by omega) (by norm_num; omega)]
    split_ifs <;> omega
  · by_cases h2 : v < 0x200000
    · rw [if_neg h1, if_pos h2]
      simp only
      rw [byteAt_setByte_ne _ _ _ _ (by omega), byteAt_setByte_ne _ _ _ _ (by omega),
        byteAt_setByte_eq _ _ _ (by omega), and_31,
        lor_eq_add (n := 5) _ _ (by norm_num) (by omega)]
      omega
    · rw [if_neg h1, if_neg h2, if_pos hx]
      simp only
      rw [byteAt_writeLE_lt _ _ _ _ _ (by omega), byteAt_setByte_eq _ _ _ (by omega),
        and_15, lor_eq_add (n := 4) _ _ (by norm_num) (by omega)]
      omega

theorem rt_u64 (buf : List Nat) (h : 9 ≤ buf.length) (v : Nat) (hv : v < 2 ^ 64) :
    decode_u64 (encode_u64 buf v).1 = (v, (encode_u64 buf v).2) := by
  have h128 : v < 2 ^ 128 := lt_of_lt_of_le hv (by norm_num)
  by_cases h1 : v ≤ 0xFFFFFFFF
  · rw [encode_u64, if_pos h1, Nat.mod_eq_of_lt (by norm_num; omega)]
    by_cases h2 : v < 0x10000000
    · have hlt := encode_u32_byte0_lt buf v (by omega) (by norm_num; omega) h2
      rw [decode_u64, if_neg (by omega)]
      exact rt_u32 buf (by omega) v (by norm_num; omega)
    · rw [encode_u32, if_neg (by omega), if_neg (by omega), if_neg h2]
      simp only
      have hb0 : byteAt (setByte (writeLE buf 1 (v % 2 ^ 32) 4) 0 0xF3) 0 = 0xF3 := by
        rw [byteAt_setByte_eq _ _ _ (by simp; omega)]
      rw [decode_u64, if_pos (by rw [hb0]; norm_num)]
      have := decodeBLP_encLarge 8 4 3 0xF3 buf v (by omega) (by omega) (by omega)
        (by norm_num; omega) (by decide)
      norm_num at this ⊢
      exact this
  · rw [encode_u64, if_neg h1]
    simp only [leadingZeros]
    set len := ((64 - bitLen v) >>> 3) ^^^ 7 with hlendef
    have hs1 : 33 ≤ bitLen v := by
      by_contra hc
      have := (bitLen_le_iff h128).mp (by omega : bitLen v ≤ 32)
      norm_num at this
      omega
    have hs2 : bitLen v ≤ 64 := (bitLen_le_iff h128).mpr hv
    have hq : (64 - bitLen v) >>> 3 = (64 - bitLen v) / 8 := by rw [shr]; norm_num
    have hlen : len = 7 - (64 - bitLen v) / 8 := by
      rw [hlendef, hq, xor_seven _ (by omega)]
    have hlenrange : 4 ≤ len ∧ len ≤ 7 := by omega
    have hvbound : v < 2 ^ (8 * (len + 1)) := by
      have hb := lt_two_pow_bitLen h128
      have hle : 2 ^ bitLen v ≤ 2 ^ (8 * (len + 1)) :=
        Nat.pow_le_pow_right (by norm_num) (by omega)
      omega
    have hb0add : 0xF0 ||| len = 240 + len :=
      lor_eq_add (n := 4) _ _ (by norm_num) (by omega)
    have hb0 : byteAt (setByte (writeLE buf 1 (v % 2 ^ 64) 8) 0 (0xF0 ||| len)) 0
        = 240 + len := by
      rw [byteAt_setByte_eq _ _ _ (by simp; omega), hb0add,
        Nat.mod_eq_of_lt (by omega)]
    rw [decode_u64, if_pos (by rw [hb0]; omega)]
    have := decodeBLP_encLarge 8 8 len (0xF0 ||| len) buf v (by omega) (by omega)
      (by omega) hvbound
      (by rw [hb0add, Nat.mod_eq_of_lt (by omega), and_15]; omega)
    norm_num at this ⊢
    exact this

theorem rt_u128 (buf : List Nat) (h : 17 ≤ buf.length) (v : Nat) (hv : v < 2 ^ 128) :
    decode_u128 (encode_u128 buf v).1 = (v, (encode_u128 buf v).2) := by
  by_cases h1 : v ≤ 0xFFFFFFFFFFFFFFFF
  · rw [encode_u128, if_pos h1, Nat.mod_eq_of_lt (by norm_num; omega)]
    by_cases h2 : v ≤ 0xFFFFFFFF
    · rw [encode_u64, if_pos h2, Nat.mod_eq_of_lt (by norm_num; omega)]
      by_cases h3 : v < 0x10000000
      · have hlt := encode_u32_byte0_lt buf v (by omega) (by norm_num; omega) h3
        rw [decode_u128, if_neg (by omega)]
        have h32 := rt_u32 buf (by omega) v (by norm_num; omega)
        rw [decode_u32] at h32
        by_cases hF : byteAt (encode_u32 buf v).1 0 ≥ 0xF0
        · omega
        · rw [if_neg hF] at h32
          rw [decode_u32, if_neg hF]
          exact h32
      · rw [encode_u32, if_neg (by omega), if_neg (by omega), if_neg h3]
        simp only
        have hb0 : byteAt (setByte (writeLE buf 1 (v % 2 ^ 32) 4) 0 0xF3) 0 = 0xF3 := by
          rw [byteAt_setByte_eq _ _ _ (by simp; omega)]
        rw [decode_u128, if_pos (by rw [hb0]; norm_num)]
        have := decodeBLP_encLarge 16 4 3 0xF3 buf v (by omega) (by omega) (by omega)
          (by norm_num; omega) (by decide)
        norm_num at this ⊢
        exact this
    · have h128 : v < 2 ^ 128 := hv
      rw [encode_u64, if_neg h2]
      simp only [leadingZeros]
      set len := ((64 - bitLen v) >>> 3) ^^^ 7 with hlendef
      have hs1 : 33 ≤ bitLen v := by
        by_contra hc
        have := (bitLen_le_iff h128).mp (by omega : bitLen v ≤ 32)
        norm_num at this
        omega
      have hs2 : bitLen v ≤ 64 := (bitLen_le_iff h128).mpr (by norm_num; omega)
      have hq : (64 - bitLen v) >>> 3 = (64 - bitLen v) / 8 := by rw [shr]; norm_num
      have hlen : len = 7 - (64 - bitLen v) / 8 := by
        rw [hlendef, hq, xor_seven _ (by omega)]
      have hvbound : v < 2 ^ (8 * (len + 1)) := by
        have hb := lt_two_pow_bitLen h128
        have hle : 2 ^ bitLen v ≤ 2 ^ (8 * (len + 1)) :=
          Nat.pow_le_pow_right (by norm_num) (by omega)
        omega
      have hb0add : 0xF0 ||| len = 240 + len :=
        lor_eq_add (n := 4) _ _ (by norm_num) (by omega)
      have hb0 : byteAt (setByte (writeLE buf 1 (v % 2 ^ 64) 8) 0 (0xF0 ||| len)) 0
          = 240 + len := by
        rw [byteAt_setByte_eq _ _ _ (by simp; omega), hb0add,
          Nat.mod_eq_of_lt (by omega)]
      rw [decode_u128, if_pos (by rw [hb0]; omega)]
      have := decodeBLP_encLarge 16 8 len (0xF0 ||| len) buf v (by omega) (by omega)
        (by omega) hvbound
        (by rw [hb0add, Nat.mod_eq_of_lt (by omega), and_15]; omega)
      norm_num at this ⊢
      exact this
  · rw [encode_u128, if_neg h1]
    simp only [leadingZeros]
    set len := ((128 - bitLen v) >>> 3) ^^^ 15 with hlendef
    have hs1 : 65 ≤ bitLen v := by
      by_contra hc
      have := (bitLen_le_iff hv).mp (by omega : bitLen v ≤ 64)
      norm_num at this
      omega
    have hs2 : bitLen v ≤ 128 := (bitLen_le_iff hv).mpr hv
    have hq : (128 - bitLen v) >>> 3 = (128 - bitLen v) / 8 := by rw [shr]; norm_num
    have hlen : len = 15 - (128 - bitLen v) / 8 := by
      rw [hlendef, hq, xor_fifteen _ (by omega)]
    have hvbound : v < 2 ^ (8 * (len + 1)) := by
      have hb := lt_two_pow_bitLen hv
      have hle : 2 ^ bitLen v ≤ 2 ^ (8 * (len + 1)) :=
        Nat.pow_le_pow_right (by norm_num) (by omega)
      omega
    have hb0add : 0xF0 ||| len = 240 + len :=
      lor_eq_add (n := 4) _ _ (by norm_num) (by omega)
    have hb0 : byteAt (setByte (writeLE buf 1 (v % 2 ^ 128) 16) 0 (0xF0 ||| len)) 0
        = 240 + len := by
      rw [byteAt_setByte_eq _ _ _ (by simp; omega), hb0add,
        Nat.mod_eq_of_lt (by omega)]
    rw [decode_u128, if_pos (by rw [hb0]; omega)]
    have := decodeBLP_encLarge 16 16 len (0xF0 ||| len) buf v (by omega) (by omega)
      (by omega) hvbound
      (by rw [hb0add, Nat.mod_eq_of_lt (by omega), and_15]; omega)
    norm_num at this ⊢
    exact this

/-! ## Zigzag round trip -/

theorem cast_two_pow (W : Nat) : ((2 ^ W : Nat) : Int) = (2 : Int) ^ W := by
  push_cast
  ring

theorem asU_lt (W : Nat) (v : Int) : asU W v < 2 ^ W := by
  unfold asU
  have hpos : (0 : Int) < 2 ^ W := pow_pos (by norm_num) W
  have h1 : 0 ≤ v % (2 : Int) ^ W := Int.emod_nonneg v (by omega)
  have h2 : v % (2 : Int) ^ W < 2 ^ W := Int.emod_lt_of_pos v hpos
  have hc := cast_two_pow W
  omega

theorem asU_eq (W : Nat) (v : Int) (h1 : -(2 ^ W : Int) ≤ v) (h2 : v < 2 ^ W) :
    (asU W v : Int) = if 0 ≤ v then v else v + 2 ^ W := by
  unfold asU
  have hpos : (0 : Int) < 2 ^ W := pow_pos (by norm_num) W
  by_cases h : 0 ≤ v
  · rw [if_pos h, Int.emod_eq_of_lt h h2, Int.toNat_of_nonneg h]
  · rw [if_neg h]
    have hmod : v % (2 : Int) ^ W = v + 2 ^ W := by
      have hself := Int.add_mul_emod_self_left (a := v) (b := (2 : Int) ^ W) (c := 1)
      rw [mul_one] at hself
      rw [← hself, Int.emod_eq_of_lt (by omega) (by omega)]
    rw [hmod, Int.toNat_of_nonneg (by omega)]

theorem asU_neg_one (W : Nat) : asU W (-1) = 2 ^ W - 1 := by
  have hpos : (0 : Int) < 2 ^ W := pow_pos (by norm_num) W
  have := asU_eq W (-1) (by omega) (by omega)
  rw [if_neg (by omega)] at this
  have hc := cast_two_pow W
  omega

theorem zigzag_lt (W : Nat) (v : Int) : zigzag W v < 2 ^ W :=
  Nat.xor_lt_two_pow (asU_lt _ _) (asU_lt _ _)

/-- Arithmetic shift right of a small integer by its own width is its sign. -/
theorem shiftRight_small (s : Nat) (v : Int) (h1 : -(2 ^ s : Int) ≤ v)
    (h2 : v < 2 ^ s) : v >>> s = if 0 ≤ v then 0 else -1 := by
  have hc := cast_two_pow s
  cases v with
  | ofNat n =>
    have hnn : (0 : Int) ≤ Int.ofNat n := by
      rw [Int.ofNat_eq_natCast]
      positivity
    rw [if_pos hnn]
    show Int.ofNat (n >>> s) = 0
    have hn : n < 2 ^ s := by
      rw [Int.ofNat_eq_natCast] at h2
      omega
    rw [shr, Nat.div_eq_of_lt hn]
    rfl
  | negSucc n =>
    rw [if_neg (by rw [Int.negSucc_eq]; omega)]
    show Int.negSucc (n >>> s) = -1
    have hn : n < 2 ^ s := by
      rw [Int.negSucc_eq] at h1
      omega
    rw [shr, Nat.div_eq_of_lt hn]
    rfl

theorem zigzag_eq (W : Nat) (hW : 1 ≤ W) (v : Int)
    (hlo : -(2 ^ (W - 1) : Int) ≤ v) (hhi : v < 2 ^ (W - 1)) :
    zigzag W v = if 0 ≤ v then (2 * v).toNat else (-2 * v - 1).toNat := by
  have hpow : (2 : Int) ^ W = 2 * 2 ^ (W - 1) := by
    conv_lhs => rw [show W = (W - 1) + 1 by omega]
    rw [pow_succ]
    ring
  have hc := cast_two_pow W
  have hc1 := cast_two_pow (W - 1)
  have hsr := shiftRight_small (W - 1) v hlo hhi
  unfold zigzag
  by_cases h : 0 ≤ v
  · rw [hsr, if_pos h, if_pos h]
    have h0 : asU W 0 = 0 := by unfold asU; simp
    rw [h0, Nat.zero_xor]
    have := asU_eq W (v * 2) (by omega) (by omega)
    rw [if_pos (by omega)] at this
    omega
  · rw [hsr, if_neg h, if_neg h]
    rw [asU_neg_one]
    have he := asU_eq W (v * 2) (by omega) (by omega)
    rw [if_neg (by omega)] at he
    rw [xor_allones W _ (asU_lt W (v * 2))]
    omega

theorem rt_zigzag (W : Nat) (hW : 2 ≤ W) (v : Int)
    (hlo : -(2 ^ (W - 1) : Int) ≤ v) (hhi : v < 2 ^ (W - 1)) :
    unzigzag W (zigzag W v) = v := by
  have hz := zigzag_eq W (by omega) v hlo hhi
  have hzlt : zigzag W v < 2 ^ W := zigzag_lt W v
  have hpowN : (2 : Nat) ^ W = 2 * 2 ^ (W - 1) := by
    conv_lhs => rw [show W = (W - 1) + 1 by omega]
    rw [pow_succ]
    ring
  have h2le : 2 ≤ (2 : Nat) ^ (W - 1) := by
    calc 2 = 2 ^ 1 := by norm_num
    _ ≤ 2 ^ (W - 1) := Nat.pow_le_pow_right (by norm_num) (by omega)
  have hc := cast_two_pow W
  have hc1 := cast_two_pow (W - 1)
  set z := zigzag W v with hzdef
  unfold unzigzag ixor
  have hshr : z >>> 1 = z / 2 := by rw [shr]; norm_num
  have hand : z &&& 1 = z % 2 := Nat.and_one_is_mod z
  have hz2 : z / 2 < 2 ^ (W - 1) := by omega
  have hts1 : toSigned W (z >>> 1) = (z / 2 : Nat) := by
    rw [hshr]; unfold toSigned; rw [if_pos hz2]
  have hts2 : toSigned W (z &&& 1) = (z % 2 : Nat) := by
    rw [hand]; unfold toSigned; rw [if_pos (by omega)]
  rw [hts1, hts2]
  have ha1 : asU W (z / 2 : Nat) = z / 2 := by
    have := asU_eq W (z / 2 : Nat) (by omega) (by omega)
    rw [if_pos (by omega)] at this
    omega
  by_cases hv : 0 ≤ v
  · rw [if_pos hv] at hz
    have hmod : z % 2 = 0 := by omega
    rw [hmod]
    have ha2 : asU W (-((0 : Nat) : Int)) = 0 := by
      norm_num
      unfold asU
      simp
    rw [ha2, ha1, Nat.xor_zero]
    unfold toSigned
    rw [if_pos hz2]
    omega
  · rw [if_neg hv] at hz
    have hmod : z % 2 = 1 := by omega
    rw [hmod]
    have ha2 : asU W (-((1 : Nat) : Int)) = 2 ^ W - 1 := by
      norm_num [asU_neg_one]
    rw [ha2, ha1, Nat.xor_comm, xor_allones W _ (by omega)]
    unfold toSigned
    rw [if_neg (by omega)]
    omega

/-! ## Round trip: signed and float layers -/

theorem rt_i16 (buf : List Nat) (h : 3 ≤ buf.length) (v : Int)
    (hlo : -(2 ^ 15 : Int) ≤ v) (hhi : v < 2 ^ 15) :
    decode_i16 (encode_i16 buf v).1 = (v, (encode_i16 buf v).2) := by
  have h1 := rt_u16 buf h (zigzag 16 v) (zigzag_lt 16 v)
  rw [encode_i16]
  unfold decode_i16
  rw [h1]
  simp only
  rw [rt_zigzag 16 (by norm_num) v (by norm_num at hlo ⊢; omega) (by norm_num at hhi ⊢; omega)]

theorem rt_i32 (buf : List Nat) (h : 5 ≤ buf.length) (v : Int)
    (hlo : -(2 ^ 31 : Int) ≤ v) (hhi : v < 2 ^ 31) :
    decode_i32 (encode_i32 buf v).1 = (v, (encode_i32 buf v).2) := by
  have h1 := rt_u32 buf h (zigzag 32 v) (zigzag_lt 32 v)
  rw [encode_i32]
  unfold decode_i32
  rw [h1]
  simp only
  rw [rt_zigzag 32 (by norm_num) v (by norm_num at hlo ⊢; omega) (by norm_num at hhi ⊢; omega)]

theorem rt_i64 (buf : List Nat) (h : 9 ≤ buf.length) (v : Int)
    (hlo : -(2 ^ 63 : Int) ≤ v) (hhi : v < 2 ^ 63) :
    decode_i64 (encode_i64 buf v).1 = (v, (encode_i64 buf v).2) := by
  have h1 := rt_u64 buf h (zigzag 64 v) (zigzag_lt 64 v)
  rw [encode_i64]
  unfold decode_i64
  rw [h1]
  simp only
  rw [rt_zigzag 64 (by norm_num) v (by norm_num at hlo ⊢; omega) (by norm_num at hhi ⊢; omega)]

theorem rt_i128 (buf : List Nat) (h : 17 ≤ buf.length) (v : Int)
    (hlo : -(2 ^ 127 : Int) ≤ v) (hhi : v < 2 ^ 127) :
    decode_i128 (encode_i128 buf v).1 = (v, (encode_i128 buf v).2) := by
  have h1 := rt_u128 buf h (zigzag 128 v) (zigzag_lt 128 v)
  rw [encode_i128]
  unfold decode_i128
  rw [h1]
  simp only
  rw [rt_zigzag 128 (by norm_num) v (by norm_num at hlo ⊢; omega) (by norm_num at hhi ⊢; omega)]

theorem byteSwap32_lt (x : Nat) : byteSwap32 x < 2 ^ 32 := by
  unfold byteSwap32
  have h1 : x % 256 < 256 := by omega
  have h2 : x / 2 ^ 8 % 256 < 256 := by omega
  have h3 : x / 2 ^ 16 % 256 < 256 := by omega
  have h4 : x / 2 ^ 24 % 256 < 256 := by omega
  norm_num at h1 h2 h3 h4 ⊢
  omega

theorem bytes4 (A B C D : Nat) (hA : A < 256) (hB : B < 256) (hC : C < 256) (hD : D < 256) :
    (A * 16777216 + B * 65536 + C * 256 + D) % 256 = D
    ∧ (A * 16777216 + B * 65536 + C * 256 + D) / 256 % 256 = C
    ∧ (A * 16777216 + B * 65536 + C * 256 + D) / 65536 % 256 = B
    ∧ (A * 16777216 + B * 65536 + C * 256 + D) / 16777216 % 256 = A := by
  refine ⟨by omega, by omega, by omega, by omega⟩

theorem byteSwap32_involutive (x : Nat) (h : x < 2 ^ 32) :
    byteSwap32 (byteSwap32 x) = x := by
  obtain ⟨e0, e1, e2, e3⟩ := bytes4 (x % 256) (x / 256 % 256) (x / 65536 % 256) (x / 16777216 % 256)
    (by omega) (by omega) (by omega) (by omega)
  have hx : byteSwap32 x = x % 256 * 16777216 + x / 256 % 256 * 65536 + x / 65536 % 256 * 256 + x / 16777216 % 256 := by
    unfold byteSwap32
    norm_num
  have houter : ∀ y : Nat, byteSwap32 y = y % 256 * 16777216 + y / 256 % 256 * 65536 + y / 65536 % 256 * 256 + y / 16777216 % 256 := by
    intro y
    unfold byteSwap32
    norm_num
  rw [hx, houter, e0, e1, e2, e3]
  clear e0 e1 e2 e3 hx houter
  omega

theorem byteSwap64_lt (x : Nat) : byteSwap64 x < 2 ^ 64 := by
  unfold byteSwap64
  have h1 : x % 256 < 256 := by omega
  have h2 : x / 2 ^ 8 % 256 < 256 := by omega
  have h3 : x / 2 ^ 16 % 256 < 256 := by omega
  have h4 : x / 2 ^ 24 % 256 < 256 := by omega
  have h5 : x / 2 ^ 32 % 256 < 256 := by omega
  have h6 : x / 2 ^ 40 % 256 < 256 := by omega
  have h7 : x / 2 ^ 48 % 256 < 256 := by omega
  have h8 : x / 2 ^ 56 % 256 < 256 := by omega
  norm_num at h1 h2 h3 h4 h5 h6 h7 h8 ⊢
  omega

theorem bytes8 (A B C D E F G H : Nat) (hA : A < 256) (hB : B < 256) (hC : C < 256) (hD : D < 256) (hE : E < 256) (hF : F < 256) (hG : G < 256) (hH : H < 256) :
    (A * 72057594037927936 + B * 281474976710656 + C * 1099511627776 + D * 4294967296 + E * 16777216 + F * 65536 + G * 256 + H) % 256 = H
    ∧ (A * 72057594037927936 + B * 281474976710656 + C * 1099511627776 + D * 4294967296 + E * 16777216 + F * 65536 + G * 256 + H) / 256 % 256 = G
    ∧ (A * 72057594037927936 + B * 281474976710656 + C * 1099511627776 + D * 4294967296 + E * 16777216 + F * 65536 + G * 256 + H) / 65536 % 256 = F
    ∧ (A * 72057594037927936 + B * 281474976710656 + C * 1099511627776 + D * 4294967296 + E * 16777216 + F * 65536 + G * 256 + H) / 16777216 % 256 = E
    ∧ (A * 72057594037927936 + B * 281474976710656 + C * 1099511627776 + D * 4294967296 + E * 16777216 + F * 65536 + G * 256 + H) / 4294967296 % 256 = D
    ∧ (A * 72057594037927936 + B * 281474976710656 + C * 1099511627776 + D * 4294967296 + E * 16777216 + F * 65536 + G * 256 + H) / 1099511627776 % 256 = C
    ∧ (A * 72057594037927936 + B * 281474976710656 + C * 1099511627776 + D * 4294967296 + E * 16777216 + F * 65536 + G * 256 + H) / 281474976710656 % 256 = B
    ∧ (A * 72057594037927936 + B * 281474976710656 + C * 1099511627776 + D * 4294967296 + E * 16777216 + F * 65536 + G * 256 + H) / 72057594037927936 % 256 = A := by
  refine ⟨by omega, by omega, by omega, by omega, by omega, by omega, by omega, by omega⟩

theorem byteSwap64_involutive (x : Nat) (h : x < 2 ^ 64) :
    byteSwap64 (byteSwap64 x) = x := by
  obtain ⟨e0, e1, e2, e3, e4, e5, e6, e7⟩ := bytes8 (x % 256) (x / 256 % 256) (x / 65536 % 256) (x / 16777216 % 256) (x / 4294967296 % 256) (x / 1099511627776 % 256) (x / 281474976710656 % 256) (x / 72057594037927936 % 256)
    (by omega) (by omega) (by omega) (by omega) (by omega) (by omega) (by omega) (by omega)
  have hx : byteSwap64 x = x % 256 * 72057594037927936 + x / 256 % 256 * 281474976710656 + x / 65536 % 256 * 1099511627776 + x / 16777216 % 256 * 4294967296 + x / 4294967296 % 256 * 16777216 + x / 1099511627776 % 256 * 65536 + x / 281474976710656 % 256 * 256 + x / 72057594037927936 % 256 := by
    unfold byteSwap64
    norm_num
  have houter : ∀ y : Nat, byteSwap64 y = y % 256 * 72057594037927936 + y / 256 % 256 * 281474976710656 + y / 65536 % 256 * 1099511627776 + y / 16777216 % 256 * 4294967296 + y / 4294967296 % 256 * 16777216 + y / 1099511627776 % 256 * 65536 + y / 281474976710656 % 256 * 256 + y / 72057594037927936 % 256 := by
    intro y
    unfold byteSwap64
    norm_num
  rw [hx, houter, e0, e1, e2, e3, e4, e5, e6, e7]
  clear e0 e1 e2 e3 e4 e5 e6 e7 hx houter
  omega

theorem rt_f32 (buf : List Nat) (h : 5 ≤ buf.length) (bits : Nat)
    (hv : bits < 2 ^ 32) :
    decode_f32 (encode_f32 buf bits).1 = (bits, (encode_f32 buf bits).2) := by
  have h1 := rt_u32 buf h (byteSwap32 bits) (byteSwap32_lt bits)
  rw [encode_f32]
  unfold decode_f32
  rw [h1]
  simp only
  rw [byteSwap32_involutive bits hv]

theorem rt_f64 (buf : List Nat) (h : 9 ≤ buf.length) (bits : Nat)
    (hv : bits < 2 ^ 64) :
    decode_f64 (encode_f64 buf bits).1 = (bits, (encode_f64 buf bits).2) := by
  have h1 := rt_u64 buf h (byteSwap64 bits) (byteSwap64_lt bits)
  rw [encode_f64]
  unfold decode_f64
  rw [h1]
  simp only
  rw [byteSwap64_involutive bits hv]

/-! ## Size/encode consistency -/

theorem size_eq_u16 (buf : List Nat) (v : Nat) :
    encoded_size_u16 v = (encode_u16 buf v).2 := by
  rw [encoded_size_u16, encode_u16]
  split_ifs <;> rfl

theorem size_eq_u32 (buf : List Nat) (v : Nat) :
    encoded_size_u32 v = (encode_u32 buf v).2 := by
  rw [encoded_size_u32, encode_u32]
  by_cases h1 : v < 0x4000
  · rw [if_pos (by omega : v ≤ 0xFFFF), if_pos h1]
    exact size_eq_u16 buf (v % 2 ^ 16)
  · by_cases h2 : v ≤ 0xFFFF
    · rw [if_pos h2, if_neg h1, if_pos (by omega : v < 0x200000),
        Nat.mod_eq_of_lt (by norm_num; omega), encoded_size_u16,
        if_neg (by omega), if_neg (by omega)]
    · rw [if_neg h2, if_neg h1]
      split_ifs <;> rfl

theorem size_eq_u64 (buf : List Nat) (v : Nat) :
    encoded_size_u64 v = (encode_u64 buf v).2 := by
  rw [encoded_size_u64, encode_u64]
  by_cases h : v ≤ 0xFFFFFFFF
  · rw [if_pos h, if_pos h]
    exact size_eq_u32 buf (v % 2 ^ 32)
  · rw [if_neg h, if_neg h]

theorem size_eq_u128 (buf : List Nat) (v : Nat) :
    encoded_size_u128 v = (encode_u128 buf v).2 := by
  rw [encoded_size_u128, encode_u128]
  by_cases h : v ≤ 0xFFFFFFFFFFFFFFFF
  · rw [if_pos h, if_pos h]
    exact size_eq_u64 buf (v % 2 ^ 64)
  · rw [if_neg h, if_neg h]

theorem size_eq_i16 (buf : List Nat) (v : Int) :
    encoded_size_signed 16 encoded_size_u16 v = (encode_i16 buf v).2 :=
  size_eq_u16 buf (zigzag 16 v)

theorem size_eq_i32 (buf : List Nat) (v : Int) :
    encoded_size_signed 32 encoded_size_u32 v = (encode_i32 buf v).2 :=
  size_eq_u32 buf (zigzag 32 v)

theorem size_eq_i64 (buf : List Nat) (v : Int) :
    encoded_size_signed 64 encoded_size_u64 v = (encode_i64 buf v).2 :=
  size_eq_u64 buf (zigzag 64 v)

theorem size_eq_i128 (buf : List Nat) (v : Int) :
    encoded_size_signed 128 encoded_size_u128 v = (encode_i128 buf v).2 :=
  size_eq_u128 buf (zigzag 128 v)

theorem size_eq_f32 (buf : List Nat) (bits : Nat) :
    encoded_size_f32 bits = (encode_f32 buf bits).2 :=
  size_eq_u32 buf (byteSwap32 bits)

theorem size_eq_f64 (buf : List Nat) (bits : Nat) :
    encoded_size_f64 bits = (encode_f64 buf bits).2 :=
  size_eq_u64 buf (byteSwap64 bits)

/-! ## Generic dispatch layer (checked slice API), instantiated at `u32` -/

/-- `<u32 as Encode>::encode` (from `impl_encode_unsigned!`): conservative
max-tier-size buffer check, then the fixed-array encoder on the prefix. -/
def encode_u32_checked (buf : List Nat) (v : Nat) : Except String (List Nat × Nat) :=
  if buf.length < 5 then .error "buffer too small for u32 encoding"
  else .ok (encode_u32 buf v)

/-- `<u32 as Decode>::decode` (from `impl_decode_unsigned!`). -/
def decode_u32_checked (buf : List Nat) : Except String (Nat × Nat) :=
  if buf.length < 5 then .error "buffer too small for u32 decoding"
  else .ok (decode_u32 buf)

/-- The loop of `bulk_encode::<u32>`: each step checks `offset >= buf.len()`
then calls `T::encode(&mut buf[offset..], value)?`. -/
def bulk_encode_u32_go (buf : List Nat) (offset : Nat) :
    List Nat → Except String (List Nat × Nat)
  | [] => .ok (buf, offset)
  | v :: vs =>
    if offset ≥ buf.length then .error "buffer too small for bulk encoding"
    else
      match encode_u32_checked (buf.drop offset) v with
      | .error e => .error e
      | .ok (sub, len) => bulk_encode_u32_go (buf.take offset ++ sub) (offset + len) vs

/-- `bulk_encode::<u32>`; returns the updated buffer and the total offset. -/
def bulk_encode (buf : List Nat) (values : List Nat) : Except String (List Nat × Nat) :=
  bulk_encode_u32_go buf 0 values

/-- The loop of `bulk_decode::<u32>`: `while i < values.len() && offset < buf.len()`
with `T::decode(&buf[offset..])?`.  Returns the final offset and the decoded values. -/
def bulk_decode_u32_go (buf : List Nat) (offset : Nat) :
    Nat → Except String (Nat × List Nat)
  | 0 => .ok (offset, [])
  | slots + 1 =>
    if offset < buf.length then
      match decode_u32_checked (buf.drop offset) with
      | .error e => .error e
      | .ok (v, len) =>
        match bulk_decode_u32_go buf (offset + len) slots with
        | .error e => .error e
        | .ok (off, vs) => .ok (off, v :: vs)
    else .ok (offset, [])

/-- `bulk_decode::<u32>` with `slots` output slots. -/
def bulk_decode (buf : List Nat) (slots : Nat) : Except String (Nat × List Nat) :=
  bulk_decode_u32_go buf 0 slots

/-! ## SIMD bulk codec: portable scalar path and safe wrappers -/

/-- `handle_remaining_decode` / `GenericSimd::bulk_decode_u32`: per value, copy
`min(5, remaining)` bytes into a zeroed 5-byte temp buffer and run `decode_u32`. -/
def simd_scalar_decode_go (buf : List Nat) (offset : Nat) : Nat → Nat × List Nat
  | 0 => (offset, [])
  | slots + 1 =>
    if offset < buf.length then
      let copyLen := min 5 (buf.length - offset)
      let temp := (buf.drop offset).take copyLen ++ List.replicate (5 - copyLen) 0
      let (v, len) := decode_u32 temp
      let (off, vs) := simd_scalar_decode_go buf (offset + len) slots
      (off, v :: vs)
    else (offset, [])

/-- The portable scalar `bulk_decode_u32` backend (returns the final offset and
the decoded values; every backend degenerates to this loop for short batches). -/
def scalar_bulk_decode_u32 (buf : List Nat) (slots : Nat) : Nat × List Nat :=
  simd_scalar_decode_go buf 0 slots

/-- `bulk_encode_u32_safe`, parameterized by the architecture-specific
unchecked `bulk_encode_u32` it guards (modelled as returning the written length). -/
def bulk_encode_u32_safe (unchecked : List Nat → List Nat → Nat)
    (buf : List Nat) (values : List Nat) : Except String Nat :=
  if buf.length < values.length * 5 then .error "buffer too small for bulk encoding"
  else .ok (unchecked buf values)

/-- `bulk_decode_u32_safe`, parameterized by the architecture-specific
unchecked `bulk_decode_u32` it wraps (modelled as returning the consumed length). -/
def bulk_decode_u32_safe (unchecked : List Nat → Nat → Nat)
    (buf : List Nat) (slots : Nat) : Except String Nat :=
  if buf.isEmpty then .ok 0
  else .ok (unchecked buf slots)

/-! ## Wire-format tier builders (the byte layouts of the encoder branches),
used to state overlong-decode tolerance -/

/-- `n` little-endian bytes of `v`. -/
def leBytes : Nat → Nat → List Nat
  | 0, _ => []
  | n + 1, v => v % 256 :: leBytes n (v / 256)

/-- The 2-byte tier layout (`0x80 | (x & 0x3F)`, `x >> 6`). -/
def tier2_u16 (v : Nat) : List Nat := [0x80 ||| (v &&& 0x3F), (v >>> 6) % 256]

/-- The u16 3-byte `0xDE` sentinel tier layout. -/
def tier3_u16 (v : Nat) : List Nat := [0xDE, v % 256, (v >>> 8) % 256]

/-- The u32 3-byte `0xC0` tier layout. -/
def tier3_u32 (v : Nat) : List Nat :=
  [0xC0 ||| (v &&& 0x1F), (v >>> 5) % 256, (v >>> 13) % 256]

/-- The u32 4-byte `0xE0` tier layout. -/
def tier4_u32 (v : Nat) : List Nat := (0xE0 ||| (v &&& 0x0F)) :: leBytes 3 (v >>> 4)

/-- The u32 5-byte `0xF3` fixed-sentinel tier layout. -/
def tier5_u32 (v : Nat) : List Nat := 0xF3 :: leBytes 4 v

/-- The `0xF0 | len` binary-length-prefix tier layout with `len + 1` payload bytes. -/
def tierF0 (len v : Nat) : List Nat := (0xF0 ||| len) :: leBytes (len + 1) v

/-- Pad a tier layout with zero bytes up to the type's max tier size. -/
def padTo (size : Nat) (l : List Nat) : List Nat :=
  l ++ List.replicate (size - l.length) 0

/-! ## Overlong-decode tolerance -/

@[simp] theorem length_leBytes : ∀ (n v : Nat), (leBytes n v).length = n
  | 0, _ => rfl
  | n + 1, v => by simp [leBytes, length_leBytes n]

theorem leRead_cons (a : Nat) (l : List Nat) : ∀ (off n : Nat),
    leRead (a :: l) (off + 1) n = leRead l off n := by
  intro off n
  induction n generalizing off with
  | zero => rfl
  | succ n ih =>
    rw [leRead, leRead, byteAt_cons_succ, show off + 1 + 1 = (off + 1) + 1 by rfl,
      ih (off + 1)]

theorem byteAt_leBytes : ∀ (n v k : Nat) (rest : List Nat), k < n →
    byteAt (leBytes n v ++ rest) k = (v / 256 ^ k) % 256 := by
  intro n
  induction n with
  | zero => intro v k rest h; omega
  | succ n ih =>
    intro v k rest h
    cases k with
    | zero =>
      rw [leBytes, List.cons_append, byteAt_cons_zero]
      simp [Nat.mod_mod_of_dvd]
    | succ k =>
      rw [leBytes, List.cons_append, byteAt_cons_succ, ih (v / 256) k rest (by omega),
        Nat.div_div_eq_div_mul, pow_succ]
      ring_nf

theorem leRead_leBytes : ∀ (n v : Nat) (rest : List Nat),
    leRead (leBytes n v ++ rest) 0 n = v % 256 ^ n := by
  intro n
  induction n with
  | zero => intro v rest; simp [leRead, Nat.mod_one]
  | succ n ih =>
    intro v rest
    rw [leBytes, List.cons_append, leRead, byteAt_cons_zero,
      show (0 : Nat) + 1 = 0 + 1 by rfl, leRead_cons, ih (v / 256) rest,
      Nat.mod_mod_of_dvd _ (by norm_num), pow_succ', Nat.mod_mul]

theorem ov_u16_3B (v : Nat) (hv : v < 2 ^ 16) : decode_u16 (tier3_u16 v) = (v, 3) := by
  norm_num at hv
  rw [tier3_u16]
  have hb0 : byteAt [0xDE, v % 256, (v >>> 8) % 256] 0 = 0xDE := by
    rw [byteAt_cons_zero]
  have hb1 : byteAt [0xDE, v % 256, (v >>> 8) % 256] 1 = v % 256 := by
    rw [byteAt_cons_succ, byteAt_cons_zero]
    omega
  have hb2 : byteAt [0xDE, v % 256, (v >>> 8) % 256] 2 = v / 256 := by
    rw [byteAt_cons_succ, byteAt_cons_succ, byteAt_cons_zero, shr]
    norm_num
    omega
  simp only [decode_u16, hb0, hb1, hb2]
  rw [if_neg (by omega), if_neg (by omega), if_true, shl,
    lor_eq_add (n := 8) _ _ (Nat.mul_mod_left _ _) (by norm_num; omega)]
  norm_num
  omega

theorem ov_u32_2B (v : Nat) (hv : v < 0x4000) :
    decode_u32 (padTo 5 (tier2_u16 v)) = (v, 2) := by
  have hb : padTo 5 (tier2_u16 v)
      = [0x80 ||| (v &&& 0x3F), (v >>> 6) % 256, 0, 0, 0] := rfl
  rw [hb]
  have hb0 : byteAt [0x80 ||| (v &&& 0x3F), (v >>> 6) % 256, 0, 0, 0] 0
      = 128 + v % 64 := by
    rw [byteAt_cons_zero, and_63, lor_eq_add (n := 6) _ _ (by norm_num) (by omega),
      Nat.mod_eq_of_lt (by omega)]
  have hb1 : byteAt [0x80 ||| (v &&& 0x3F), (v >>> 6) % 256, 0, 0, 0] 1
      = v / 64 := by
    rw [byteAt_cons_succ, byteAt_cons_zero, shr]
    norm_num
    omega
  simp only [decode_u32, decode_u16, hb0, hb1]
  rw [if_neg (by omega), if_pos (by omega), if_neg (by omega), if_pos (by omega),
    and_63, show (128 + v % 64) % 64 = v % 64 by omega, shl,
    lor_eq_add (n := 6) _ _ (Nat.mul_mod_left _ _) (by norm_num; omega)]
  norm_num
  omega

theorem ov_u32_3B (v : Nat) (hv : v < 0x200000) :
    decode_u32 (padTo 5 (tier3_u32 v)) = (v, 3) := by
  have hb : padTo 5 (tier3_u32 v)
      = [0xC0 ||| (v &&& 0x1F), (v >>> 5) % 256, (v >>> 13) % 256, 0, 0] := rfl
  rw [hb]
  set l := [0xC0 ||| (v &&& 0x1F), (v >>> 5) % 256, (v >>> 13) % 256, 0, 0] with hl
  have hb0 : byteAt l 0 = 192 + v % 32 := by
    rw [hl, byteAt_cons_zero, and_31, lor_eq_add (n := 5) _ _ (by norm_num) (by omega),
      Nat.mod_eq_of_lt (by omega)]
  have hb1 : byteAt l 1 = (v / 32) % 256 := by
    rw [hl, byteAt_cons_succ, byteAt_cons_zero, shr]
    norm_num
  have hb2 : byteAt l 2 = v / 8192 := by
    rw [hl, byteAt_cons_succ, byteAt_cons_succ, byteAt_cons_zero, shr]
    norm_num
    omega
  simp only [decode_u32, hb0, hb1, hb2]
  rw [if_neg (by omega), if_neg (by omega), if_pos (by omega), and_31,
    show (192 + v % 32) % 32 = v % 32 by omega,
    decode3_value _ _ _ (by omega) (by omega)]
  norm_num
  omega

theorem ov_u32_4B (v : Nat) (hv : v < 0x10000000) :
    decode_u32 (padTo 5 (tier4_u32 v)) = (v, 4) := by
  have hb : padTo 5 (tier4_u32 v)
      = (0xE0 ||| (v &&& 0x0F)) :: (leBytes 3 (v >>> 4) ++ [0]) := rfl
  rw [hb]
  set l := (0xE0 ||| (v &&& 0x0F)) :: (leBytes 3 (v >>> 4) ++ [0]) with hl
  have hx : v >>> 4 = v / 16 := by rw [shr]; norm_num
  have hb0 : byteAt l 0 = 224 + v % 16 := by
    rw [hl, byteAt_cons_zero, and_15, lor_eq_add (n := 4) _ _ (by norm_num) (by omega),
      Nat.mod_eq_of_lt (by omega)]
  have hb1 : byteAt l 1 = (v / 16) % 256 := by
    rw [hl, byteAt_cons_succ, byteAt_leBytes 3 _ 0 _ (by omega), hx]
    norm_num
  have hb2 : byteAt l 2 = (v / 4096) % 256 := by
    rw [hl, byteAt_cons_succ, byteAt_leBytes 3 _ 1 _ (by omega), hx]
    norm_num
    rw [Nat.div_div_eq_div_mul]
  have hb3 : byteAt l 3 = v / 1048576 := by
    rw [hl, byteAt_cons_succ, byteAt_leBytes 3 _ 2 _ (by omega), hx]
    norm_num
    rw [Nat.div_div_eq_div_mul]
    omega
  simp only [decode_u32, hb0, hb1, hb2, hb3]
  rw [if_neg (by omega), if_neg (by omega), if_neg (by omega), and_15,
    show (224 + v % 16) % 16 = v % 16 by omega,
    decode4_value _ _ _ _ (by omega) (by omega) (by omega)]
  norm_num
  omega

theorem ov_u32_5B (v : Nat) (hv : v < 2 ^ 32) :
    decode_u32 (tier5_u32 v) = (v, 5) := by
  rw [tier5_u32]
  have hb0 : byteAt (0xF3 :: leBytes 4 v) 0 = 0xF3 := by rw [byteAt_cons_zero]
  have hle : leRead (0xF3 :: leBytes 4 v) 1 4 = v := by
    rw [show (1 : Nat) = 0 + 1 by rfl, leRead_cons,
      show leBytes 4 v = leBytes 4 v ++ [] by simp, leRead_leBytes, pow256]
    norm_num
    omega
  simp only [decode_u32]
  rw [hb0, if_pos (by norm_num)]
  have := decodeBLP_eq 4 3 (0xF3 :: leBytes 4 v) v (by rw [hb0]; decide) (by omega) hle
  rw [this]

theorem ov_u64_F0 (len v : Nat) (hlen : len < 8) (hv : v < 2 ^ (8 * (len + 1))) :
    decode_u64 (padTo 9 (tierF0 len v)) = (v, len + 2) := by
  have hb : padTo 9 (tierF0 len v)
      = (0xF0 ||| len) :: (leBytes (len + 1) v ++ List.replicate (9 - (len + 2)) 0) := by
    rw [padTo, tierF0]
    simp [List.cons_append]
  rw [hb]
  have hor : 0xF0 ||| len = 240 + len :=
    lor_eq_add (n := 4) _ _ (by norm_num) (by norm_num; omega)
  have hb0 : byteAt ((0xF0 ||| len) ::
      (leBytes (len + 1) v ++ List.replicate (9 - (len + 2)) 0)) 0 = 240 + len := by
    rw [byteAt_cons_zero, hor, Nat.mod_eq_of_lt (by omega)]
  have hle : leRead ((0xF0 ||| len) ::
      (leBytes (len + 1) v ++ List.replicate (9 - (len + 2)) 0)) 1 (len + 1) = v := by
    rw [show (1 : Nat) = 0 + 1 by rfl, leRead_cons, leRead_leBytes, pow256,
      Nat.mod_eq_of_lt hv]
  rw [decode_u64, if_pos (by rw [hb0]; omega)]
  have := decodeBLP_eq 8 len _ v (by rw [hb0, and_15]; omega) (by omega) hle
  rw [this]

theorem ov_u128_F0 (len v : Nat) (hlen : len < 16) (hv : v < 2 ^ (8 * (len + 1))) :
    decode_u128 (padTo 17 (tierF0 len v)) = (v, len + 2) := by
  have hb : padTo 17 (tierF0 len v)
      = (0xF0 ||| len) :: (leBytes (len + 1) v ++ List.replicate (17 - (len + 2)) 0) := by
    rw [padTo, tierF0]
    simp [List.cons_append]
  rw [hb]
  have hor : 0xF0 ||| len = 240 + len :=
    lor_eq_add (n := 4) _ _ (by norm_num) (by norm_num; omega)
  have hb0 : byteAt ((0xF0 ||| len) ::
      (leBytes (len + 1) v ++ List.replicate (17 - (len + 2)) 0)) 0 = 240 + len := by
    rw [byteAt_cons_zero, hor, Nat.mod_eq_of_lt (by omega)]
  have hle : leRead ((0xF0 ||| len) ::
      (leBytes (len + 1) v ++ List.replicate (17 - (len + 2)) 0)) 1 (len + 1) = v := by
    rw [show (1 : Nat) = 0 + 1 by rfl, leRead_cons, leRead_leBytes, pow256,
      Nat.mod_eq_of_lt hv]
  rw [decode_u128, if_pos (by rw [hb0]; omega)]
  have := decodeBLP_eq 16 len _ v (by rw [hb0, and_15]; omega) (by omega) hle
  rw [this]

/-! ## Padding insensitivity: the decoders read only the consumed bytes -/

theorem decode_u16_len_pos (b : List Nat) : 1 ≤ (decode_u16 b).2 := by
  rw [decode_u16]
  split_ifs <;> simp [decodeBLP]

theorem decodeBLP_congr (size : Nat) (b1 b2 : List Nat)
    (hag : ∀ i, i < (byteAt b1 0 &&& 0x0F) + 2 → byteAt b1 i = byteAt b2 i) :
    decodeBLP size b1 = decodeBLP size b2 := by
  have hb0 : byteAt b1 0 = byteAt b2 0 := hag 0 (by omega)
  simp only [decodeBLP, ← hb0]
  by_cases hp : (byteAt b1 0 &&& 0x0F) + 1 ≥ size
  · rw [if_pos hp]
    have h1 : leRead b1 1 size = leRead b2 1 size :=
      leRead_congr size b1 b2 1 (fun i hi => hag (1 + i) (by omega))
    rw [h1]
  · rw [if_neg hp, max_shiftRight _ _ (by omega),
      show 8 * size - (size - ((byteAt b1 0 &&& 0x0F) + 1)) * 8
        = 8 * ((byteAt b1 0 &&& 0x0F) + 1) by omega,
      and_mask, and_mask, ← pow256,
      leRead_mod _ 1 _ _ (by omega), leRead_mod _ 1 _ _ (by omega),
      leRead_congr _ b1 b2 1 (fun i hi => hag (1 + i) (by omega))]

theorem decode_u16_congr (b1 b2 : List Nat)
    (hag : ∀ i, i < (decode_u16 b1).2 → byteAt b1 i = byteAt b2 i) :
    decode_u16 b1 = decode_u16 b2 := by
  have hb0 : byteAt b1 0 = byteAt b2 0 :=
    hag 0 (by have := decode_u16_len_pos b1; omega)
  by_cases h1 : byteAt b1 0 < 0x80
  · rw [decode_u16, decode_u16, if_pos h1, if_pos (by rw [← hb0]; exact h1), hb0]
  · by_cases h2 : byteAt b1 0 < 0xC0
    · have e : (decode_u16 b1).2 = 2 := by
        rw [decode_u16, if_neg h1, if_pos h2]
      have hb1 := hag 1 (by omega)
      rw [decode_u16, decode_u16, if_neg h1, if_pos h2,
        if_neg (by rw [← hb0]; exact h1), if_pos (by rw [← hb0]; exact h2), hb0, hb1]
    · by_cases h3 : byteAt b1 0 = 0xDE
      · have e : (decode_u16 b1).2 = 3 := by
          rw [decode_u16, if_neg h1, if_neg h2, if_pos h3]
        have hb1 := hag 1 (by omega)
        have hb2 := hag 2 (by omega)
        rw [decode_u16, decode_u16, if_neg h1, if_neg h2, if_pos h3,
          if_neg (by rw [← hb0]; exact h1), if_neg (by rw [← hb0]; exact h2),
          if_pos (by rw [← hb0]; exact h3), hb1, hb2]
      · have e : (decode_u16 b1).2 = (byteAt b1 0 &&& 0x0F) + 2 := by
          rw [decode_u16, if_neg h1, if_neg h2, if_neg h3]
          rfl
        rw [decode_u16, decode_u16, if_neg h1, if_neg h2, if_neg h3,
          if_neg (by rw [← hb0]; exact h1), if_neg (by rw [← hb0]; exact h2),
          if_neg (by rw [← hb0]; exact h3)]
        exact decodeBLP_congr 2 b1 b2 (fun i hi => hag i (by omega))

theorem decode_u32_len_pos (b : List Nat) : 1 ≤ (decode_u32 b).2 := by
  rw [decode_u32]
  split_ifs <;> first
    | simp [decodeBLP]
    | exact decode_u16_len_pos b

theorem decode_u32_congr (b1 b2 : List Nat)
    (hag : ∀ i, i < (decode_u32 b1).2 → byteAt b1 i = byteAt b2 i) :
    decode_u32 b1 = decode_u32 b2 := by
  have hb0 : byteAt b1 0 = byteAt b2 0 :=
    hag 0 (by have := decode_u32_len_pos b1; omega)
  by_cases h1 : byteAt b1 0 ≥ 0xF0
  · have e : (decode_u32 b1).2 = (byteAt b1 0 &&& 0x0F) + 2 := by
      rw [decode_u32, if_pos h1]
      rfl
    rw [decode_u32, decode_u32, if_pos h1, if_pos (by rw [← hb0]; exact h1)]
    exact decodeBLP_congr 4 b1 b2 (fun i hi => hag i (by omega))
  · by_cases h2 : byteAt b1 0 < 0xC0
    · have e : (decode_u32 b1).2 = (decode_u16 b1).2 := by
        rw [decode_u32, if_neg (by omega), if_pos h2]
      rw [decode_u32, decode_u32, if_neg (by omega), if_pos h2,
        if_neg (by rw [← hb0]; omega), if_pos (by rw [← hb0]; exact h2)]
      exact decode_u16_congr b1 b2 (fun i hi => hag i (by omega))
    · by_cases h3 : byteAt b1 0 < 0xE0
      · have e : (decode_u32 b1).2 = 3 := by
          rw [decode_u32, if_neg (by omega), if_neg (by omega), if_pos h3]
        have hb1 := hag 1 (by omega)
        have hb2 := hag 2 (by omega)
        rw [decode_u32, decode_u32, if_neg (by omega), if_neg (by omega),
          if_pos h3, if_neg (by rw [← hb0]; omega), if_neg (by rw [← hb0]; omega),
          if_pos (by rw [← hb0]; exact h3), hb0, hb1, hb2]
      · have e : (decode_u32 b1).2 = 4 := by
          rw [decode_u32, if_neg (by omega), if_neg (by omega), if_neg h3]
        have hb1 := hag 1 (by omega)
        have hb2 := hag 2 (by omega)
        have hb3 := hag 3 (by omega)
        rw [decode_u32, decode_u32, if_neg (by omega), if_neg (by omega),
          if_neg h3, if_neg (by rw [← hb0]; omega), if_neg (by rw [← hb0]; omega),
          if_neg (by rw [← hb0]; exact h3), hb0, hb1, hb2, hb3]

theorem decode_u64_len_pos (b : List Nat) : 1 ≤ (decode_u64 b).2 := by
  rw [decode_u64]
  split_ifs <;> first
    | simp [decodeBLP]
    | exact decode_u32_len_pos b

theorem decode_u64_congr (b1 b2 : List Nat)
    (hag : ∀ i, i < (decode_u64 b1).2 → byteAt b1 i = byteAt b2 i) :
    decode_u64 b1 = decode_u64 b2 := by
  have hb0 : byteAt b1 0 = byteAt b2 0 :=
    hag 0 (by have := decode_u64_len_pos b1; omega)
  by_cases h1 : byteAt b1 0 ≥ 0xF0
  · have e : (decode_u64 b1).2 = (byteAt b1 0 &&& 0x0F) + 2 := by
      rw [decode_u64, if_pos h1]
      rfl
    rw [decode_u64, decode_u64, if_pos h1, if_pos (by rw [← hb0]; exact h1)]
    exact decodeBLP_congr 8 b1 b2 (fun i hi => hag i (by omega))
  · have e : (decode_u64 b1).2 = (decode_u32 b1).2 := by
      rw [decode_u64, if_neg h1]
    rw [decode_u64, decode_u64, if_neg h1, if_neg (by rw [← hb0]; exact h1)]
    exact decode_u32_congr b1 b2 (fun i hi => hag i (by omega))

theorem decode_u128_len_pos (b : List Nat) : 1 ≤ (decode_u128 b).2 := by
  rw [decode_u128]
  split_ifs <;> first
    | simp [decodeBLP]
    | exact decode_u32_len_pos b

theorem decode_u128_congr (b1 b2 : List Nat)
    (hag : ∀ i, i < (decode_u128 b1).2 → byteAt b1 i = byteAt b2 i) :
    decode_u128 b1 = decode_u128 b2 := by
  have hb0 : byteAt b1 0 = byteAt b2 0 :=
    hag 0 (by have := decode_u128_len_pos b1; omega)
  by_cases h1 : byteAt b1 0 ≥ 0xF0
  · have e : (decode_u128 b1).2 = (byteAt b1 0 &&& 0x0F) + 2 := by
      rw [decode_u128, if_pos h1]
      rfl
    rw [decode_u128, decode_u128, if_pos h1, if_pos (by rw [← hb0]; exact h1)]
    exact decodeBLP_congr 16 b1 b2 (fun i hi => hag i (by omega))
  · have e : (decode_u128 b1).2 = (decode_u32 b1).2 := by
      rw [decode_u128, if_neg h1]
    rw [decode_u128, decode_u128, if_neg h1, if_neg (by rw [← hb0]; exact h1)]
    exact decode_u32_congr b1 b2 (fun i hi => hag i (by omega))

theorem byteAt_take (l : List Nat) (n i : Nat) (h : i < n) :
    byteAt (l.take n) i = byteAt l i := by
  simp [byteAt, List.getD, List.getElem?_take, h]

theorem take_agree_byteAt (l1 l2 : List Nat) (n : Nat) (h : l1.take n = l2.take n) :
    ∀ i, i < n → byteAt l1 i = byteAt l2 i := by
  intro i hi
  rw [← byteAt_take l1 n i hi, ← byteAt_take l2 n i hi, h]

/-- Replacing every byte past the consumed length by a constant byte `c`
does not change the decode result. -/
theorem decode_pad (d : List Nat → Nat × Nat)
    (hcongr : ∀ b1 b2, (∀ i, i < (d b1).2 → byteAt b1 i = byteAt b2 i) → d b1 = d b2)
    (b : List Nat) (size c : Nat) (hb : b.length = size) :
    d (List.take (d b).2 b ++ List.replicate (size - (d b).2) c) = d b := by
  refine (hcongr b _ ?_).symm
  intro i hi
  simp only [byteAt, List.getD, List.get?_eq_getElem?]
  by_cases hc : i < size
  · have hlen : i < (List.take (d b).2 b).length := by
      rw [List.length_take]
      omega
    rw [List.getElem?_append_left hlen, List.getElem?_take_of_lt hi]
  · rw [List.getElem?_eq_none (l := b) (by omega),
      List.getElem?_eq_none (by simp [List.length_take]; omega)]

/-! ## Claim theorems -/

/-- C1: Round trip — for every value of every supported type (u16/u32/u64/u128,
i16/i32/i64/i128 via zigzag, f32/f64 via byte-swapped bit pattern), decoding the
buffer produced by the corresponding encode function returns the original value
together with a length equal to the length the encoder returned (floats are
compared as bit patterns, so NaN payloads round-trip bit for bit). -/
theorem spec_round_trip :
    (∀ (buf : List Nat) (v : Nat), 3 ≤ buf.length → v < 2 ^ 16 →
      decode_u16 (encode_u16 buf v).1 = (v, (encode_u16 buf v).2))
    ∧ (∀ (buf : List Nat) (v : Nat), 5 ≤ buf.length → v < 2 ^ 32 →
      decode_u32 (encode_u32 buf v).1 = (v, (encode_u32 buf v).2))
    ∧ (∀ (buf : List Nat) (v : Nat), 9 ≤ buf.length → v < 2 ^ 64 →
      decode_u64 (encode_u64 buf v).1 = (v, (encode_u64 buf v).2))
    ∧ (∀ (buf : List Nat) (v : Nat), 17 ≤ buf.length → v < 2 ^ 128 →
      decode_u128 (encode_u128 buf v).1 = (v, (encode_u128 buf v).2))
    ∧ (∀ (buf : List Nat) (v : Int), 3 ≤ buf.length → -(2 ^ 15 : Int) ≤ v → v < 2 ^ 15 →
      decode_i16 (encode_i16 buf v).1 = (v, (encode_i16 buf v).2))
    ∧ (∀ (buf : List Nat) (v : Int), 5 ≤ buf.length → -(2 ^ 31 : Int) ≤ v → v < 2 ^ 31 →
      decode_i32 (encode_i32 buf v).1 = (v, (encode_i32 buf v).2))
    ∧ (∀ (buf : List Nat) (v : Int), 9 ≤ buf.length → -(2 ^ 63 : Int) ≤ v → v < 2 ^ 63 →
      decode_i64 (encode_i64 buf v).1 = (v, (encode_i64 buf v).2))
    ∧ (∀ (buf : List Nat) (v : Int), 17 ≤ buf.length → -(2 ^ 127 : Int) ≤ v → v < 2 ^ 127 →
      decode_i128 (encode_i128 buf v).1 = (v, (encode_i128 buf v).2))
    ∧ (∀ (buf : List Nat) (bits : Nat), 5 ≤ buf.length → bits < 2 ^ 32 →
      decode_f32 (encode_f32 buf bits).1 = (bits, (encode_f32 buf bits).2))
    ∧ (∀ (buf : List Nat) (bits : Nat), 9 ≤ buf.length → bits < 2 ^ 64 →
      decode_f64 (encode_f64 buf bits).1 = (bits, (encode_f64 buf bits).2)) :=
  ⟨fun buf v h hv => rt_u16 buf h v hv,
   fun buf v h hv => rt_u32 buf h v hv,
   fun buf v h hv => rt_u64 buf h v hv,
   fun buf v h hv => rt_u128 buf h v hv,
   fun buf v h h1 h2 => rt_i16 buf h v h1 h2,
   fun buf v h h1 h2 => rt_i32 buf h v h1 h2,
   fun buf v h h1 h2 => rt_i64 buf h v h1 h2,
   fun buf v h h1 h2 => rt_i128 buf h v h1 h2,
   fun buf bits h hv => rt_f32 buf h bits hv,
   fun buf bits h hv => rt_f64 buf h bits hv⟩

/-- Witness for C1 at concrete inputs (u32 value 123456, i32 value -7,
f32 NaN bit pattern 0x7FC00001). -/
theorem spec_round_trip_witness :
    decode_u32 (encode_u32 [0, 0, 0, 0, 0] 123456).1
      = (123456, (encode_u32 [0, 0, 0, 0, 0] 123456).2)
    ∧ decode_i32 (encode_i32 [0, 0, 0, 0, 0] (-7)).1
      = (-7, (encode_i32 [0, 0, 0, 0, 0] (-7)).2)
    ∧ decode_f32 (encode_f32 [0, 0, 0, 0, 0] 0x7FC00001).1
      = (0x7FC00001, (encode_f32 [0, 0, 0, 0, 0] 0x7FC00001).2) :=
  ⟨spec_round_trip.2.1 [0, 0, 0, 0, 0] 123456 (by norm_num) (by norm_num),
   spec_round_trip.2.2.2.2.2.1 [0, 0, 0, 0, 0] (-7) (by norm_num) (by norm_num)
     (by norm_num),
   spec_round_trip.2.2.2.2.2.2.2.2.1 [0, 0, 0, 0, 0] 0x7FC00001 (by norm_num)
     (by norm_num)⟩

/-- C2: Size/encode consistency — `encoded_size_u16/u32/u64/u128 value` equals
the length returned by the corresponding encode function (the size functions
take no buffer at all, so they cannot write to one), and the generic
`Encode::encoded_size` of the signed and float types equals the corresponding
encode length. -/
theorem spec_size_consistency :
    (∀ (buf : List Nat) (v : Nat), encoded_size_u16 v = (encode_u16 buf v).2)
    ∧ (∀ (buf : List Nat) (v : Nat), encoded_size_u32 v = (encode_u32 buf v).2)
    ∧ (∀ (buf : List Nat) (v : Nat), encoded_size_u64 v = (encode_u64 buf v).2)
    ∧ (∀ (buf : List Nat) (v : Nat), encoded_size_u128 v = (encode_u128 buf v).2)
    ∧ (∀ (buf : List Nat) (v : Int),
      encoded_size_signed 16 encoded_size_u16 v = (encode_i16 buf v).2)
    ∧ (∀ (buf : List Nat) (v : Int),
      encoded_size_signed 32 encoded_size_u32 v = (encode_i32 buf v).2)
    ∧ (∀ (buf : List Nat) (v : Int),
      encoded_size_signed 64 encoded_size_u64 v = (encode_i64 buf v).2)
    ∧ (∀ (buf : List Nat) (v : Int),
      encoded_size_signed 128 encoded_size_u128 v = (encode_i128 buf v).2)
    ∧ (∀ (buf : List Nat) (bits : Nat), encoded_size_f32 bits = (encode_f32 buf bits).2)
    ∧ (∀ (buf : List Nat) (bits : Nat), encoded_size_f64 bits = (encode_f64 buf bits).2) :=
  ⟨size_eq_u16, size_eq_u32, size_eq_u64, size_eq_u128, size_eq_i16, size_eq_i32,
   size_eq_i64, size_eq_i128, size_eq_f32, size_eq_f64⟩

/-- C3: Exact wire bytes for the spec's concrete scenarios, counting only the
first `length` bytes of the output buffer (and `zigzag(-1) = 1` for the i32
scenario). -/
theorem spec_wire_bytes :
    ((encode_u32 [0, 0, 0, 0, 0] 0x00000000).2 = 1
      ∧ List.take 1 (encode_u32 [0, 0, 0, 0, 0] 0x00000000).1 = [0x00])
    ∧ ((encode_u32 [0, 0, 0, 0, 0] 0x00000080).2 = 2
      ∧ List.take 2 (encode_u32 [0, 0, 0, 0, 0] 0x00000080).1 = [0x80, 0x02])
    ∧ ((encode_u32 [0, 0, 0, 0, 0] 0x00200000).2 = 4
      ∧ List.take 4 (encode_u32 [0, 0, 0, 0, 0] 0x00200000).1 = [0xE0, 0x00, 0x00, 0x02])
    ∧ ((encode_u32 [0, 0, 0, 0, 0] 0x10000000).2 = 5
      ∧ List.take 5 (encode_u32 [0, 0, 0, 0, 0] 0x10000000).1
        = [0xF3, 0x00, 0x00, 0x00, 0x10])
    ∧ (zigzag 32 (-1) = 1 ∧ (encode_i32 [0, 0, 0, 0, 0] (-1)).2 = 1
      ∧ List.take 1 (encode_i32 [0, 0, 0, 0, 0] (-1)).1 = [0x01])
    ∧ ((encode_u64 [0, 0, 0, 0, 0, 0, 0, 0, 0] 0xFFFFFFFFFFFFFFFF).2 = 9
      ∧ List.take 9 (encode_u64 [0, 0, 0, 0, 0, 0, 0, 0, 0] 0xFFFFFFFFFFFFFFFF).1
        = [0xF7, 0xFF, 0xFF, 0xFF, 0xFF, 0xFF, 0xFF, 0xFF, 0xFF]) := by
  refine ⟨⟨?_, ?_⟩, ⟨?_, ?_⟩, ⟨?_, ?_⟩, ⟨?_, ?_⟩, ⟨?_, ?_, ?_⟩, ⟨?_, ?_⟩⟩ <;> rfl

/-- C4: Overlong decode tolerance — a value held in any tier whose payload is
wide enough decodes back to the value with that tier's length: the u16 `0xDE`
tier for any u16, the 2-byte tier for u32 values below `0x4000`, the 3-byte
`0xC0` tier below `0x200000`, the 4-byte `0xE0` tier below `0x10000000`, the
5-byte `0xF3` tier for any u32, and any `0xF0|len` tier of u64/u128 whose
`len + 1` payload bytes cover the value. -/
theorem spec_overlong_decode :
    (∀ v : Nat, v < 2 ^ 16 → decode_u16 (tier3_u16 v) = (v, 3))
    ∧ (∀ v : Nat, v < 0x4000 → decode_u32 (padTo 5 (tier2_u16 v)) = (v, 2))
    ∧ (∀ v : Nat, v < 0x200000 → decode_u32 (padTo 5 (tier3_u32 v)) = (v, 3))
    ∧ (∀ v : Nat, v < 0x10000000 → decode_u32 (padTo 5 (tier4_u32 v)) = (v, 4))
    ∧ (∀ v : Nat, v < 2 ^ 32 → decode_u32 (tier5_u32 v) = (v, 5))
    ∧ (∀ len v : Nat, len < 8 → v < 2 ^ (8 * (len + 1)) →
      decode_u64 (padTo 9 (tierF0 len v)) = (v, len + 2))
    ∧ (∀ len v : Nat, len < 16 → v < 2 ^ (8 * (len + 1)) →
      decode_u128 (padTo 17 (tierF0 len v)) = (v, len + 2)) :=
  ⟨ov_u16_3B, ov_u32_2B, ov_u32_3B, ov_u32_4B, ov_u32_5B,
   fun len v h1 h2 => ov_u64_F0 len v h1 h2,
   fun len v h1 h2 => ov_u128_F0 len v h1 h2⟩

/-- Witness for C4: the value 5 decodes from the non-minimal 2-byte tier, and
the value 1 from the maximal 9-byte u64 tier. -/
theorem spec_overlong_decode_witness :
    decode_u32 (padTo 5 (tier2_u16 5)) = (5, 2)
    ∧ decode_u64 (padTo 9 (tierF0 7 1)) = (1, 9) :=
  ⟨spec_overlong_decode.2.1 5 (by norm_num),
   spec_overlong_decode.2.2.2.2.2.1 7 1 (by norm_num) (by norm_num)⟩

/-- C7: Padding insensitivity — if two max-tier-size buffers agree on the first
`length` bytes, where `length` is the consumed length decode derives from the
first byte, decode returns the same `(value, length)` on both; in particular
replacing the bytes beyond the consumed length by all zeros or all `0xFF` does
not change the result. -/
theorem spec_padding_insensitive :
    (∀ b1 b2 : List Nat, b1.length = 3 → b2.length = 3 →
      List.take (decode_u16 b1).2 b1 = List.take (decode_u16 b1).2 b2 →
      decode_u16 b1 = decode_u16 b2)
    ∧ (∀ b1 b2 : List Nat, b1.length = 5 → b2.length = 5 →
      List.take (decode_u32 b1).2 b1 = List.take (decode_u32 b1).2 b2 →
      decode_u32 b1 = decode_u32 b2)
    ∧ (∀ b1 b2 : List Nat, b1.length = 9 → b2.length = 9 →
      List.take (decode_u64 b1).2 b1 = List.take (decode_u64 b1).2 b2 →
      decode_u64 b1 = decode_u64 b2)
    ∧ (∀ b1 b2 : List Nat, b1.length = 17 → b2.length = 17 →
      List.take (decode_u128 b1).2 b1 = List.take (decode_u128 b1).2 b2 →
      decode_u128 b1 = decode_u128 b2)
    ∧ (∀ (b : List Nat) (c : Nat), b.length = 3 →
      decode_u16 (List.take (decode_u16 b).2 b
        ++ List.replicate (3 - (decode_u16 b).2) c) = decode_u16 b)
    ∧ (∀ (b : List Nat) (c : Nat), b.length = 5 →
      decode_u32 (List.take (decode_u32 b).2 b
        ++ List.replicate (5 - (decode_u32 b).2) c) = decode_u32 b)
    ∧ (∀ (b : List Nat) (c : Nat), b.length = 9 →
      decode_u64 (List.take (decode_u64 b).2 b
        ++ List.replicate (9 - (decode_u64 b).2) c) = decode_u64 b)
    ∧ (∀ (b : List Nat) (c : Nat), b.length = 17 →
      decode_u128 (List.take (decode_u128 b).2 b
        ++ List.replicate (17 - (decode_u128 b).2) c) = decode_u128 b) :=
  ⟨fun b1 b2 _ _ hag => decode_u16_congr b1 b2 (take_agree_byteAt b1 b2 _ hag),
   fun b1 b2 _ _ hag => decode_u32_congr b1 b2 (take_agree_byteAt b1 b2 _ hag),
   fun b1 b2 _ _ hag => decode_u64_congr b1 b2 (take_agree_byteAt b1 b2 _ hag),
   fun b1 b2 _ _ hag => decode_u128_congr b1 b2 (take_agree_byteAt b1 b2 _ hag),
   fun b c hb => decode_pad decode_u16 decode_u16_congr b 3 c hb,
   fun b c hb => decode_pad decode_u32 decode_u32_congr b 5 c hb,
   fun b c hb => decode_pad decode_u64 decode_u64_congr b 9 c hb,
   fun b c hb => decode_pad decode_u128 decode_u128_congr b 17 c hb⟩

/-- Witness for C7: a 1-byte u16 value decodes identically whatever the two
trailing bytes hold, and zero/one padding past the consumed length of a 5-byte
u32 buffer leaves the decode unchanged. -/
theorem spec_padding_insensitive_witness :
    decode_u16 [5, 7, 8] = decode_u16 [5, 1, 2]
    ∧ decode_u32 (List.take (decode_u32 [0x80, 0x02, 9, 9, 9]).2 [0x80, 0x02, 9, 9, 9]
      ++ List.replicate (5 - (decode_u32 [0x80, 0x02, 9, 9, 9]).2) 255)
      = decode_u32 [0x80, 0x02, 9, 9, 9] :=
  ⟨spec_padding_insensitive.1 [5, 7, 8] [5, 1, 2] rfl rfl rfl,
   spec_padding_insensitive.2.2.2.2.2.1 [0x80, 0x02, 9, 9, 9] 255 rfl⟩

/-- C8: On first bytes the encoder never emits, decode follows the raw
length-prefix rule uncapped: `decode_u16` on any first byte in `0xC0..0xFF`
other than `0xDE` consumes `(b & 0x0F) + 2` bytes (between 2 and 17, which can
exceed u16's 3-byte maximum tier and differ from `encoded_len`, e.g.
`b = 0xC0` has `encoded_len 3` but decode length 2); `decode_u64` on first
bytes `0xF8..0xFF` consumes 10 to 17 bytes while the decoded value is still
masked to the type's width. -/
theorem spec_nonminimal_prefix_lengths :
    (∀ buf : List Nat, 0xC0 ≤ byteAt buf 0 → byteAt buf 0 ≠ 0xDE →
      (decode_u16 buf).2 = (byteAt buf 0 &&& 0x0F) + 2
      ∧ 2 ≤ (decode_u16 buf).2 ∧ (decode_u16 buf).2 ≤ 17)
    ∧ (encoded_len 0xC0 = 3 ∧ (decode_u16 [0xC0, 0, 0]).2 = 2
      ∧ (decode_u16 [0xCF, 0, 0]).2 = 17)
    ∧ (∀ buf : List Nat, 0xF8 ≤ byteAt buf 0 →
      (decode_u64 buf).2 = (byteAt buf 0 &&& 0x0F) + 2
      ∧ 10 ≤ (decode_u64 buf).2 ∧ (decode_u64 buf).2 ≤ 17
      ∧ (decode_u64 buf).1 < 2 ^ 64) := by
  refine ⟨?_, ⟨rfl, rfl, rfl⟩, ?_⟩
  · intro buf h1 h2
    have hlt := byteAt_lt buf 0
    have he : decode_u16 buf = decodeBLP 2 buf := by
      rw [decode_u16, if_neg (by omega), if_neg (by omega), if_neg h2]
    have hsnd : (decodeBLP 2 buf).2 = (byteAt buf 0 &&& 0x0F) + 2 := rfl
    have hand : byteAt buf 0 &&& 0x0F = byteAt buf 0 % 16 := and_15 _
    refine ⟨by rw [he, hsnd], by rw [he, hsnd]; omega, by rw [he, hsnd]; omega⟩
  · intro buf h1
    have hlt := byteAt_lt buf 0
    have he : decode_u64 buf = decodeBLP 8 buf := by
      rw [decode_u64, if_pos (by omega)]
    have hsnd : (decodeBLP 8 buf).2 = (byteAt buf 0 &&& 0x0F) + 2 := rfl
    have hand : byteAt buf 0 &&& 0x0F = byteAt buf 0 % 16 := and_15 _
    refine ⟨by rw [he, hsnd], by rw [he, hsnd]; omega, by rw [he, hsnd]; omega, ?_⟩
    have hmask : ((byteAt buf 0 &&& 0x0F) + 1 ≥ 8) := by omega
    rw [he]
    simp only [decodeBLP, if_pos hmask]
    rw [and_mask]
    exact Nat.mod_lt _ (by positivity)

/-- Witness for C8 at the concrete first byte `0xC3` (decode_u16 length 5) and
`0xF9` (decode_u64 length 11). -/
theorem spec_nonminimal_prefix_lengths_witness :
    (decode_u16 [0xC3, 0, 0]).2 = (0xC3 &&& 0x0F) + 2
    ∧ (decode_u64 [0xF9, 0, 0, 0, 0, 0, 0, 0, 0]).2 = (0xF9 &&& 0x0F) + 2 :=
  ⟨(spec_nonminimal_prefix_lengths.1 [0xC3, 0, 0] (by decide) (by decide)).1,
   (spec_nonminimal_prefix_lengths.2.2 [0xF9, 0, 0, 0, 0, 0, 0, 0, 0] (by decide)).1⟩

/-- C5 (counterexample): on the buffer `[0x80]` — the encoding of the u32 value
128 truncated mid-value — `bulk_decode::<u32>` with one output slot returns an
error, not `Ok` with garbage as the claim states. -/
theorem spec_bulk_decode_truncation_cx :
    bulk_decode [0x80] 1 = .error "buffer too small for u32 decoding"
    ∧ (bulk_decode [0x80] 1).isOk = false := ⟨rfl, rfl⟩

/-- C5 (amended): `bulk_decode::<u32>` stops when either the output slot count
or the input buffer is exhausted, without verifying in advance that the buffer
holds a whole number of complete values (it can even consume past the end of
the buffer and return `Ok` with a garbage value); but when a decode step finds
the remaining buffer non-empty yet shorter than u32's maximum tier size of 5
bytes — as happens when the buffer is truncated mid-value — it returns
`Err("buffer too small")` rather than `Ok` with garbage. -/
theorem spec_bulk_decode_truncation :
    (∀ buf : List Nat, bulk_decode buf 0 = .ok (0, []))
    ∧ (∀ slots : Nat, bulk_decode [] slots = .ok (0, []))
    ∧ bulk_decode [0xFF, 0, 0, 0, 0] 1 = .ok (17, [0])
    ∧ (∀ (buf : List Nat) (slots : Nat), 0 < buf.length → buf.length < 5 →
      bulk_decode buf (slots + 1) = .error "buffer too small for u32 decoding") := by
  refine ⟨fun buf => rfl, fun slots => by cases slots <;> rfl, rfl, ?_⟩
  intro buf slots h1 h2
  rw [bulk_decode, bulk_decode_u32_go, if_pos h1]
  have hd : decode_u32_checked (buf.drop 0)
      = .error "buffer too small for u32 decoding" := by
    rw [List.drop_zero, decode_u32_checked, if_pos (by omega)]
  rw [hd]

/-- Witness for C5 (amended) at a 3-byte buffer holding one complete 2-byte
value and one truncated value. -/
theorem spec_bulk_decode_truncation_witness :
    bulk_decode [0x80, 0x02, 0x80] 1 = .error "buffer too small for u32 decoding" :=
  spec_bulk_decode_truncation.2.2.2 [0x80, 0x02, 0x80] 0 (by norm_num) (by norm_num)

/-- C6 (counterexample): `bulk_decode_u32_safe` on the undersized buffer
`[0x80]` (a value truncated mid-encoding, far smaller than any batch window)
does not return an error: it invokes the unchecked path (here the portable
scalar backend) and returns `Ok`. -/
theorem spec_simd_safe_cx :
    bulk_decode_u32_safe (fun b s => (scalar_bulk_decode_u32 b s).1) [0x80] 1
      = .ok 2 := rfl

/-- C6 (amended): `bulk_encode_u32_safe` validates
`buffer.len() >= values.len() * 5` and returns an error instead of invoking the
unchecked `bulk_encode_u32` when undersized; `bulk_decode_u32_safe` performs no
size validation at all — it returns `Ok 0` for an empty buffer and otherwise
always invokes the unchecked `bulk_decode_u32`, never returning an error. -/
theorem spec_simd_safe_wrappers :
    (∀ (f : List Nat → List Nat → Nat) (buf values : List Nat),
      buf.length < values.length * 5 →
      bulk_encode_u32_safe f buf values = .error "buffer too small for bulk encoding")
    ∧ (∀ (f : List Nat → List Nat → Nat) (buf values : List Nat),
      values.length * 5 ≤ buf.length →
      bulk_encode_u32_safe f buf values = .ok (f buf values))
    ∧ (∀ (g : List Nat → Nat → Nat) (slots : Nat),
      bulk_decode_u32_safe g [] slots = .ok 0)
    ∧ (∀ (g : List Nat → Nat → Nat) (buf : List Nat) (slots : Nat), buf ≠ [] →
      bulk_decode_u32_safe g buf slots = .ok (g buf slots)) := by
  refine ⟨?_, ?_, fun g slots => rfl, ?_⟩
  · intro f buf values h
    rw [bulk_encode_u32_safe, if_pos h]
  · intro f buf values h
    rw [bulk_encode_u32_safe, if_neg (by omega)]
  · intro g buf slots h
    rw [bulk_decode_u32_safe, if_neg (by simp [List.isEmpty_iff, h])]

/-- Witness for C6 (amended): a 3-byte buffer cannot hold one encoded u32 under
the wrapper's check, and a non-empty buffer always reaches the unchecked
decoder. -/
theorem spec_simd_safe_wrappers_witness :
    bulk_encode_u32_safe (fun _ _ => 0) [0, 0, 0] [1]
      = .error "buffer too small for bulk encoding"
    ∧ bulk_decode_u32_safe (fun b s => (scalar_bulk_decode_u32 b s).1) [0x05] 1
      = .ok ((scalar_bulk_decode_u32 [0x05] 1).1) :=
  ⟨spec_simd_safe_wrappers.1 (fun _ _ => 0) [0, 0, 0] [1] (by norm_num),
   spec_simd_safe_wrappers.2.2.2 (fun b s => (scalar_bulk_decode_u32 b s).1)
     [0x05] 1 (by norm_num)⟩

/-- C9: `bulk_encode::<u32>` demands at each value's write offset at least
u32's maximum tier size (5 bytes) of remaining buffer — the per-value checked
encode's conservative precondition — so a 5-byte buffer that exactly fits the
total encoded size of five values `1` (five single bytes) is still rejected,
while a roomier buffer encodes the same values in 5 bytes total. -/
theorem spec_bulk_encode_conservative :
    bulk_encode (List.replicate 5 0) [1, 1, 1, 1, 1]
      = .error "buffer too small for u32 encoding"
    ∧ (List.map encoded_size_u32 [1, 1, 1, 1, 1]).sum = 5
    ∧ bulk_encode (List.replicate 25 0) [1, 1, 1, 1, 1]
      = .ok (List.replicate 5 1 ++ List.replicate 20 0, 5)
    ∧ (∀ (buf : List Nat) (offset v : Nat) (vs : List Nat), buf.length ≤ offset →
      bulk_encode_u32_go buf offset (v :: vs) = .error "buffer too small for bulk encoding")
    ∧ (∀ (buf : List Nat) (offset v : Nat) (vs : List Nat), offset < buf.length →
      buf.length - offset < 5 →
      bulk_encode_u32_go buf offset (v :: vs)
        = .error "buffer too small for u32 encoding") := by
  refine ⟨rfl, rfl, rfl, ?_, ?_⟩
  · intro buf offset v vs h
    rw [bulk_encode_u32_go, if_pos (by omega)]
  · intro buf offset v vs h1 h2
    rw [bulk_encode_u32_go, if_neg (by omega)]
    have hd : encode_u32_checked (buf.drop offset) v
        = .error "buffer too small for u32 encoding" := by
      rw [encode_u32_checked, if_pos (by simp [List.length_drop]; omega)]
    rw [hd]

/-- Witness for C9 at a 4-byte buffer with one pending value. -/
theorem spec_bulk_encode_conservative_witness :
    bulk_encode_u32_go [0, 0, 0, 0] 0 [7]
      = .error "buffer too small for u32 encoding" :=
  spec_bulk_encode_conservative.2.2.2.2 [0, 0, 0, 0] 0 7 [] (by norm_num) (by norm_num)

/-- C10: the fixed-size-array encoders may write bytes past the returned length
(never past the max-tier-size array): for every u32 value in the 4-byte tier
the encoder stores a full 4-byte little-endian word at offset 1, zeroing index
4 while returning length 4; for u64/u128 values above the delegated range the
full fixed 8- or 16-byte payload slot is written even when the returned length
is smaller; buffer length itself is always preserved. -/
theorem spec_encoder_writes_past_length :
    (∀ (buf : List Nat) (v : Nat), buf.length = 5 → 0x200000 ≤ v → v < 0x10000000 →
      (encode_u32 buf v).2 = 4 ∧ byteAt (encode_u32 buf v).1 4 = 0)
    ∧ encode_u32 [9, 9, 9, 9, 9] 0x200000 = ([0xE0, 0, 0, 0x02, 0], 4)
    ∧ encode_u64 [9, 9, 9, 9, 9, 9, 9, 9, 9] (2 ^ 32)
      = ([0xF4, 0, 0, 0, 0, 1, 0, 0, 0], 6)
    ∧ encode_u128 (List.replicate 17 9) (2 ^ 64)
      = ([0xF8, 0, 0, 0, 0, 0, 0, 0, 0, 1, 0, 0, 0, 0, 0, 0, 0], 10)
    ∧ (∀ (buf : List Nat) (v : Nat), (encode_u32 buf v).1.length = buf.length)
    ∧ (∀ (buf : List Nat) (v : Nat), (encode_u64 buf v).1.length = buf.length)
    ∧ (∀ (buf : List Nat) (v : Nat), (encode_u128 buf v).1.length = buf.length) := by
  refine ⟨?_, rfl, rfl, rfl, length_encode_u32, length_encode_u64, length_encode_u128⟩
  intro buf v hb h1 h2
  rw [encode_u32, if_neg (by omega), if_neg (by omega), if_pos h2]
  refine ⟨rfl, ?_⟩
  have hx : (v >>> 4) % 2 ^ 32 = v / 16 := by
    rw [shr]
    norm_num
    omega
  have := byteAt_writeLE_in 4 (setByte buf 0 (0xE0 ||| (v &&& 0x0F))) 1
    ((v >>> 4) % 2 ^ 32) 3 (by omega) (by simp [hb])
  rw [show (1 : Nat) + 3 = 4 by rfl] at this
  rw [this, hx]
  norm_num
  omega

/-- Witness for C10: encoding `0x300000` into a 5-byte buffer of nines returns
length 4 and zeroes the fifth byte. -/
theorem spec_encoder_writes_past_length_witness :
    (encode_u32 [9, 9, 9, 9, 9] 0x300000).2 = 4
    ∧ byteAt (encode_u32 [9, 9, 9, 9, 9] 0x300000).1 4 = 0 :=
  spec_encoder_writes_past_length.1 [9, 9, 9, 9, 9] 0x300000 (by decide)
    (by norm_num) (by norm_num)

end Vlen
